import Mathlib

/-!
# Verification of the sia-satellite contract maintenance engine

A shallow embedding, in Lean 4, of the contract-maintenance code of the
sia-satellite repository (`satellite/manager/contractor/contractmaintenance.go`
and the portal payment handler), together with theorems settling the
specification claims about it.

Modelling conventions:
* `types.Currency` (an unbounded non-negative big integer) is modelled as `Nat`;
  `Currency.Sub` is only ever called in the source on guarded non-underflowing
  paths, where it agrees with truncated `Nat` subtraction.
* Go maps are modelled as functions into `Option`; a Go map read returning the
  zero value for a missing key is `Option.getD _ 0`.
* External collaborators (host database, transaction pool, siafund tax) are
  passed in as explicit parameters, since the maintenance code treats them as
  opaque oracles.
-/

namespace SiaSatellite

/-- Model of `smodules.ContractUtility`: the utility triple attached to a contract. -/
structure ContractUtility where
  goodForUpload : Bool
  goodForRenew : Bool
  locked : Bool
deriving DecidableEq, Repr

/-- Model of `modules.RenterContract`: the contract metadata used by the maintenance
code.  Public keys and identifiers are modelled as `Nat`; `maintenanceSpending`
stands for `MaintenanceSpending.Sum()`. -/
structure RenterContract where
  id : Nat
  renterPublicKey : Nat
  hostPublicKey : Nat
  startHeight : Nat
  endHeight : Nat
  fileSize : Nat
  renterFunds : Nat
  totalCost : Nat
  uploadSpending : Nat
  downloadSpending : Nat
  fundAccountSpending : Nat
  maintenanceSpending : Nat
  utility : ContractUtility
deriving DecidableEq, Repr

/-- The subset of `smodules.Allowance` consulted by the maintenance code. -/
structure Allowance where
  funds : Nat
  hosts : Nat
  period : Nat
  renewWindow : Nat
  maxRPCPrice : Nat
  maxContractPrice : Nat
  maxSectorAccessPrice : Nat
deriving DecidableEq, Repr

/-- The subset of `smodules.HostExternalSettings` consulted by the gouging
checks and by contract classification. -/
structure HostExternalSettings where
  baseRPCPrice : Nat
  contractPrice : Nat
  sectorAccessPrice : Nat
  storagePrice : Nat
  uploadBandwidthPrice : Nat
  downloadBandwidthPrice : Nat
  maxDuration : Nat
deriving DecidableEq, Repr

/-- Model of `staticCheckFormPaymentContractGouging` from `contractmaintenance.go`:
rejects (returns an error) when a non-zero ceiling is less than or equal to the
corresponding quoted host price. -/
def staticCheckFormPaymentContractGouging (allowance : Allowance)
    (hostSettings : HostExternalSettings) : Option String :=
  if allowance.maxRPCPrice ≠ 0 ∧ allowance.maxRPCPrice ≤ hostSettings.baseRPCPrice then
    some "rpc base price of host is too high - extortion protection enabled"
  else if allowance.maxContractPrice ≠ 0 ∧
      allowance.maxContractPrice ≤ hostSettings.contractPrice then
    some "contract price of host is too high - extortion protection enabled"
  else if allowance.maxSectorAccessPrice ≠ 0 ∧
      allowance.maxSectorAccessPrice ≤ hostSettings.sectorAccessPrice then
    some "sector access price of host is too high - extortion protection enabled"
  else
    none

/-- Model of `checkFormContractGouging` from `contractmaintenance.go`: rejects when a
non-zero ceiling is strictly less than the corresponding quoted host price. -/
def checkFormContractGouging (allowance : Allowance)
    (hostSettings : HostExternalSettings) : Option String :=
  if allowance.maxRPCPrice ≠ 0 ∧ allowance.maxRPCPrice < hostSettings.baseRPCPrice then
    some "rpc base price of host is too high - price gouging protection enabled"
  else if allowance.maxContractPrice ≠ 0 ∧
      allowance.maxContractPrice < hostSettings.contractPrice then
    some "contract price of host is too high - price gouging protection enabled"
  else
    none

/-- The fields of a host-directory entry (`smodules.HostDBEntry`) consulted by
the maintenance code.  The embedded `HostExternalSettings` prices are flattened
into `settings`. -/
structure HostDBEntry where
  filtered : Bool
  settings : HostExternalSettings
  version : Nat
  maxCollateral : Nat
deriving DecidableEq, Repr

/-- The fields of a renter record consulted by the maintenance code. -/
structure Renter where
  publicKey : Nat
  currentPeriod : Nat
  allowance : Allowance
deriving DecidableEq, Repr

/-- The four spending categories accumulated over a renewal chain by the
funding estimator.  `maintenance` stands for `MaintenanceSpending.Sum()`. -/
structure SpendingTotals where
  upload : Nat
  download : Nat
  fundAccount : Nat
  maintenance : Nat
deriving DecidableEq, Repr

/-- The walk over the `renewedFrom` chain inside
`managedEstimateRenewFundingRequirements`: step back through predecessors,
accumulating their spending, stopping at an unknown predecessor, at a
predecessor missing from `oldContracts`, at a contract that started before the
renter's current period, or after the fuel (10 000 in the source) runs out. -/
def spendingWalk (renewedFrom : Nat → Option Nat)
    (oldContracts : Nat → Option RenterContract) (currentPeriod : Nat) :
    Nat → Nat → SpendingTotals → SpendingTotals
  | 0, _, acc => acc
  | fuel + 1, currentID, acc =>
    match renewedFrom currentID with
    | none => acc
    | some prevID =>
      match oldContracts prevID with
      | none => acc
      | some currentContract =>
        if currentContract.startHeight < currentPeriod then acc
        else
          spendingWalk renewedFrom oldContracts currentPeriod fuel prevID
            { upload := acc.upload + currentContract.uploadSpending,
              download := acc.download + currentContract.downloadSpending,
              fundAccount := acc.fundAccount + currentContract.fundAccountSpending,
              maintenance := acc.maintenance + currentContract.maintenanceSpending }

/-- The floor `allowance.Funds.MulFloat(fileContractMinimumFunding).Div64(allowance.Hosts)`
applied at the end of the funding estimate.  The constant
`fileContractMinimumFunding` is declared in the contractor's consts file,
which is not among the provided sources; it is kept abstract as an exact
fraction `fcmfNum / fcmfDen`, matching `Currency.MulFloat`, which multiplies
by the exact rational value of its float argument and floors. -/
def minimumFunding (allowance : Allowance) (fcmfNum fcmfDen : Nat) : Nat :=
  allowance.funds * fcmfNum / fcmfDen / allowance.hosts

/-- Model of `managedEstimateRenewFundingRequirements` from `contractmaintenance.go`.
The host directory, renter table, lineage maps, siafund tax
(`types.Tax blockHeight amount`), transaction-pool fee estimate and the
external constant `smodules.EstimatedFileContractTransactionSetSize` are
passed as parameters.  A host-directory error and a missing host both yield
an error, as in the source. -/
def managedEstimateRenewFundingRequirements
    (hostLookup : Nat → Option HostDBEntry)
    (renters : Nat → Option Renter)
    (renewedFrom : Nat → Option Nat)
    (oldContracts : Nat → Option RenterContract)
    (tax : Nat → Nat → Nat)
    (maxTxnFee txnSetSize : Nat)
    (fcmfNum fcmfDen : Nat)
    (contract : RenterContract) (blockHeight : Nat) (allowance : Allowance) :
    Except String Nat :=
  match hostLookup contract.hostPublicKey with
  | none => .error "could not find host in hostdb"
  | some host =>
    if host.filtered then .error "host is blocked"
    else
      match renters contract.renterPublicKey with
      | none => .error "renter not found"
      | some renter =>
        let dataStored := contract.fileSize
        let storageCost := dataStored * allowance.period * host.settings.storagePrice
        let totals := spendingWalk renewedFrom oldContracts renter.currentPeriod
          10000 contract.id
          { upload := contract.uploadSpending,
            download := contract.downloadSpending,
            fundAccount := contract.fundAccountSpending,
            maintenance := contract.maintenanceSpending }
        let prevUploadDataEstimate :=
          if host.settings.uploadBandwidthPrice ≠ 0 then
            totals.upload / host.settings.uploadBandwidthPrice
          else totals.upload
        let prevUploadDataEstimate :=
          if dataStored < prevUploadDataEstimate then dataStored
          else prevUploadDataEstimate
        let newUploadsCost := totals.upload +
          prevUploadDataEstimate * allowance.period * host.settings.storagePrice
        let newDownloadsCost := totals.download
        let newFundAccountCost := totals.fundAccount
        let newMaintenanceCost := totals.maintenance
        let contractPrice := host.settings.contractPrice
        let beforeSiafundFeesEstimate := storageCost + newUploadsCost +
          newDownloadsCost + newFundAccountCost + newMaintenanceCost + contractPrice
        let afterSiafundFeesEstimate :=
          tax blockHeight beforeSiafundFeesEstimate + beforeSiafundFeesEstimate
        let txnFees := maxTxnFee * txnSetSize
        let estimatedCost := afterSiafundFeesEstimate + txnFees
        let estimatedCost := estimatedCost + estimatedCost / 3
        let minimum := minimumFunding allowance fcmfNum fcmfDen
        let estimatedCost := if estimatedCost < minimum then minimum else estimatedCost
        .ok estimatedCost

/-- The funds-remaining computation shared by `FormContracts` and
`RenewContracts`: start from the full allowance funds and subtract the
period's `TotalAllocated` only when the subtraction cannot underflow. -/
def computeFundsRemaining (allowanceFunds totalAllocated : Nat) : Nat :=
  if totalAllocated < allowanceFunds then allowanceFunds - totalAllocated
  else allowanceFunds

/-- The key `contract.RenterPublicKey.String() + contract.HostPublicKey.String()`
used by the duplicate check, modelled as the pair of keys. -/
def contractKey (c : RenterContract) : Nat × Nat :=
  (c.renterPublicKey, c.hostPublicKey)

/-- Insertion into a Go map modelled as a function into `Option`. -/
def mapInsert {α β : Type} [DecidableEq α] (f : α → Option β) (k : α) (v : β) :
    α → Option β :=
  fun x => if x = k then some v else f x

/-- Model of `staticContracts.View` / `staticContracts.Acquire` by contract ID: the
first live contract with the given ID, if any. -/
def storeView (store : List RenterContract) (fcid : Nat) : Option RenterContract :=
  store.find? (fun c => c.id == fcid)

/-- The contractor state touched by `managedCheckForDuplicates`: the live
contract store and the maps `renewedFrom`, `renewedTo` and `oldContracts`. -/
structure DedupState where
  store : List RenterContract
  renewedFrom : Nat → Option Nat
  renewedTo : Nat → Option Nat
  oldContracts : Nat → Option RenterContract

/-- One iteration of the loop in `managedCheckForDuplicates`, processing one
contract of the snapshot against the local `pubkeys` map: a fresh
`(renter, host)` key is recorded; on a duplicate, the contract with the
smaller start height (the current one on ties) is linked into the lineage
maps, archived in `oldContracts` and deleted from the live store. -/
def dedupStep (pubkeys : Nat × Nat → Option Nat) (st : DedupState)
    (contract : RenterContract) : (Nat × Nat → Option Nat) × DedupState :=
  let key := contractKey contract
  match pubkeys key with
  | none => (mapInsert pubkeys key contract.id, st)
  | some fcid =>
    match storeView st.store fcid with
    | none => (pubkeys, st)
    | some rc =>
      let nc := if contract.startHeight ≤ rc.startHeight then rc else contract
      let oc := if contract.startHeight ≤ rc.startHeight then contract else rc
      match storeView st.store oc.id with
      | none => (mapInsert pubkeys key nc.id, st)
      | some oldSC =>
        (mapInsert pubkeys key nc.id,
          { store := st.store.filter (fun c => c.id != oc.id),
            renewedFrom := mapInsert st.renewedFrom nc.id oc.id,
            renewedTo := mapInsert st.renewedTo oc.id nc.id,
            oldContracts := mapInsert st.oldContracts oc.id oldSC })

/-- Model of `managedCheckForDuplicates` from `contractmaintenance.go`: fold the
duplicate-resolution step over a snapshot of the live contract store, starting
from an empty local `pubkeys` map. -/
def managedCheckForDuplicates (st : DedupState) : DedupState :=
  (st.store.foldl (fun acc contract => dedupStep acc.1 acc.2 contract)
    (fun _ => none, st)).2

/-- The loop invariant of `managedCheckForDuplicates`: `S` is the current live
store, `todo` the unprocessed tail of the snapshot, and `p` the local
`pubkeys` map.  Live IDs are distinct, unprocessed snapshot entries are still
live, `p` maps each key to the live, already-processed contract carrying it,
and every live processed contract is registered in `p`. -/
structure DedupInv (p : Nat × Nat → Option Nat)
    (S todo : List RenterContract) : Prop where
  idsNodup : (S.map RenterContract.id).Nodup
  todoLive : ∀ t ∈ todo, t ∈ S
  todoIds : (todo.map RenterContract.id).Nodup
  lookupSound : ∀ k fcid, p k = some fcid →
    ∃ c, c ∈ S ∧ c.id = fcid ∧ contractKey c = k ∧
      c.id ∉ todo.map RenterContract.id
  processedReg : ∀ c ∈ S, c.id ∉ todo.map RenterContract.id →
    p (contractKey c) = some c.id

/-- Model of `UpdateUtility` through an acquired contract handle: replace the utility
of the live contract(s) with the given ID. -/
def updateUtility (store : List RenterContract) (fcid : Nat)
    (u : ContractUtility) : List RenterContract :=
  store.map (fun c => if c.id = fcid then { c with utility := u } else c)

/-- The contractor state touched by `managedRenewContract`. -/
structure RenewState where
  store : List RenterContract
  renewedFrom : Nat → Option Nat
  renewedTo : Nat → Option Nat
  oldContracts : Nat → Option RenterContract
  numFailedRenews : Nat → Option Nat

/-- The outcome of the network-facing prologue of `managedRenewContract`:
an error before `managedRenew` is reached (unknown renter, session or
settings failure), a failed `managedRenew` (tagged with
`smodules.IsHostsFault`), or a successful `managedRenew` returning the new
contract (which `staticContracts.Renew` has inserted into the live store).
On success, `newUtilOk` and `oldUtilOk` record whether the two disk-backed
utility updates (`managedAcquireAndUpdateContractUtility` on the new
contract, then `callUpdateUtility` on the old one) succeed; either can fail
in the source. -/
inductive RenewOutcome where
  | earlyError
  | failure (hostsFault : Bool)
  | success (newContract : RenterContract) (newUtilOk oldUtilOk : Bool)

/-- Model of `managedRenewContract` from `contractmaintenance.go`, from the point where
the renewal outcome is known.  `crbr` is the constant
`consecutiveRenewalsBeforeReplacement` (declared in the contractor's consts
file, not among the provided sources, so kept abstract).  The `renewing` map
is set and deleted again by a deferred call, a net no-op, and is elided.
When a post-renewal utility update fails, the source logs the error and
returns the funds spent with a nil error, skipping the remaining
bookkeeping; these early returns are the `false` branches of the
`newUtilOk`/`oldUtilOk` flags.  Returns the new state, the funds spent, and
the error. -/
def managedRenewContract (st : RenewState)
    (instrId amount blockHeight renewWindow crbr : Nat)
    (outcome : RenewOutcome) : RenewState × Nat × Option String :=
  match outcome with
  | .earlyError => (st, 0, some "unable to establish session with host")
  | .failure hostsFault =>
    match storeView st.store instrId with
    | none => (st, 0, some "failed to acquire oldContract after renewal")
    | some oldContract =>
      let nfr :=
        cond hostsFault
          (mapInsert st.numFailedRenews instrId
            ((st.numFailedRenews instrId).getD 0 + 1))
          st.numFailedRenews
      if (nfr instrId).isSome ∧
          oldContract.endHeight ≤ blockHeight + renewWindow / 2 ∧
          crbr ≤ (nfr instrId).getD 0 then
        ({ st with
            store := updateUtility st.store instrId
              { goodForUpload := false, goodForRenew := false, locked := true },
            numFailedRenews := nfr },
          0, some "contract marked as bad for too many consecutive failed renew attempts")
      else
        ({ st with numFailedRenews := nfr },
          0, some "contract renewal with host was unsuccessful")
  | .success newContract newUtilOk oldUtilOk =>
    let storeWithNew := st.store ++ [newContract]
    match storeView storeWithNew instrId with
    | none =>
      ({ st with store := storeWithNew }, 0,
        some "failed to acquire oldContract after renewal")
    | some oldContract =>
      match newUtilOk with
      | false =>
        ({ st with store := storeWithNew }, amount, none)
      | true =>
        let st1 := updateUtility storeWithNew newContract.id
          { goodForUpload := true, goodForRenew := true, locked := false }
        match oldUtilOk with
        | false =>
          ({ st with store := st1 }, amount, none)
        | true =>
          let st2 := updateUtility st1 instrId
            { goodForUpload := false, goodForRenew := false, locked := true }
          ({ store := st2.filter (fun c => c.id != instrId),
             renewedFrom := mapInsert st.renewedFrom newContract.id instrId,
             renewedTo := mapInsert st.renewedTo instrId newContract.id,
             oldContracts := mapInsert st.oldContracts instrId
               { oldContract with utility :=
                  { goodForUpload := false, goodForRenew := false, locked := true } },
             numFailedRenews := st.numFailedRenews },
            amount, none)

/-- A live contract about to be renewed, used to evaluate
`managedRenewContract` at a concrete input. -/
def c2Old : RenterContract :=
  { id := 1, renterPublicKey := 5, hostPublicKey := 6, startHeight := 10,
    endHeight := 200, fileSize := 0, renterFunds := 4, totalCost := 9,
    uploadSpending := 0, downloadSpending := 0, fundAccountSpending := 0,
    maintenanceSpending := 0,
    utility := { goodForUpload := true, goodForRenew := true, locked := false } }

/-- The contract produced by a successful renewal of `c2Old`, used to
evaluate `managedRenewContract` at a concrete input. -/
def c2New : RenterContract :=
  { id := 2, renterPublicKey := 5, hostPublicKey := 6, startHeight := 100,
    endHeight := 300, fileSize := 0, renterFunds := 50, totalCost := 50,
    uploadSpending := 0, downloadSpending := 0, fundAccountSpending := 0,
    maintenanceSpending := 0,
    utility := { goodForUpload := false, goodForRenew := false, locked := false } }

/-- A contractor state holding only `c2Old`, used to evaluate
`managedRenewContract` at a concrete input. -/
def c2St : RenewState :=
  { store := [c2Old], renewedFrom := fun _ => none, renewedTo := fun _ => none,
    oldContracts := fun _ => none, numFailedRenews := fun _ => none }

/-- A contractor state holding `c2Old` with five recorded failed renewals,
used to evaluate the failure path of `managedRenewContract`. -/
def c5St : RenewState :=
  { store := [c2Old], renewedFrom := fun _ => none, renewedTo := fun _ => none,
    oldContracts := fun _ => none,
    numFailedRenews := fun x => if x = 1 then some 5 else none }

/-- The progress of the duplicate check on one fixed duplicate pair `(a, b)`
(same key, `a` older) that no other live contract shares a key with: either
neither is processed yet (`pubkeys` has no entry for the key, both live),
exactly one is processed (its ID is registered, both still live), or both
are processed — then `b` survives, `a` is gone from the live store, `a` is
archived under its ID, and the lineage maps link the pair. -/
def PairInv (a b : RenterContract) (p : Nat × Nat → Option Nat)
    (st : DedupState) (todo : List RenterContract) : Prop :=
  (p (contractKey a) = none ∧ a ∈ st.store ∧ b ∈ st.store ∧
    a.id ∈ todo.map RenterContract.id ∧ b.id ∈ todo.map RenterContract.id) ∨
  (p (contractKey a) = some a.id ∧ a ∈ st.store ∧ b ∈ st.store ∧
    a.id ∉ todo.map RenterContract.id ∧ b.id ∈ todo.map RenterContract.id) ∨
  (p (contractKey a) = some b.id ∧ a ∈ st.store ∧ b ∈ st.store ∧
    b.id ∉ todo.map RenterContract.id ∧ a.id ∈ todo.map RenterContract.id) ∨
  (p (contractKey a) = some b.id ∧ b ∈ st.store ∧
    (∀ c ∈ st.store, c.id ≠ a.id) ∧
    a.id ∉ todo.map RenterContract.id ∧ b.id ∉ todo.map RenterContract.id ∧
    st.oldContracts a.id = some a ∧
    st.renewedFrom b.id = some a.id ∧
    st.renewedTo a.id = some b.id)

/-- A contract sharing its `(renter, host)` pair with `c1B` but with the
smaller start height, used to evaluate the duplicate check. -/
def c1A : RenterContract :=
  { id := 1, renterPublicKey := 5, hostPublicKey := 6, startHeight := 1000,
    endHeight := 2000, fileSize := 0, renterFunds := 0, totalCost := 0,
    uploadSpending := 0, downloadSpending := 0, fundAccountSpending := 0,
    maintenanceSpending := 0,
    utility := { goodForUpload := true, goodForRenew := true, locked := false } }

/-- A contract sharing its `(renter, host)` pair with `c1A` but with the
greater start height, used to evaluate the duplicate check. -/
def c1B : RenterContract :=
  { id := 2, renterPublicKey := 5, hostPublicKey := 6, startHeight := 1500,
    endHeight := 2500, fileSize := 0, renterFunds := 0, totalCost := 0,
    uploadSpending := 0, downloadSpending := 0, fundAccountSpending := 0,
    maintenanceSpending := 0,
    utility := { goodForUpload := true, goodForRenew := true, locked := false } }

/-- A contractor state holding the duplicate pair `c1A`, `c1B` and empty
lineage maps, used to evaluate the duplicate check. -/
def c1St : DedupState :=
  { store := [c1A, c1B], renewedFrom := fun _ => none,
    renewedTo := fun _ => none, oldContracts := fun _ => none }

/-- A third contract sharing the `(renter, host)` pair of `c1A` and `c1B`,
with the greatest start height, used to evaluate the duplicate check on a
triple of duplicates. -/
def c1C : RenterContract :=
  { id := 3, renterPublicKey := 5, hostPublicKey := 6, startHeight := 2000,
    endHeight := 3000, fileSize := 0, renterFunds := 0, totalCost := 0,
    uploadSpending := 0, downloadSpending := 0, fundAccountSpending := 0,
    maintenanceSpending := 0,
    utility := { goodForUpload := true, goodForRenew := true, locked := false } }

/-- A contractor state holding three duplicates of one `(renter, host)` pair,
used to evaluate the duplicate check on a triple of duplicates. -/
def c1St3 : DedupState :=
  { store := [c1A, c1B, c1C], renewedFrom := fun _ => none,
    renewedTo := fun _ => none, oldContracts := fun _ => none }

/-- The `gfuContracts` list built by `managedLimitGFUHosts`: the live GFU
contracts paired with their host's score, skipping contracts whose host or
score the host directory cannot produce. -/
def gfuCandidates (score : Nat → Option Nat) (store : List RenterContract) :
    List (RenterContract × Nat) :=
  store.filterMap (fun c =>
    if c.utility.goodForUpload then
      match score c.hostPublicKey with
      | none => none
      | some s => some (c, s)
    else none)

/-- The comparator of the `sort.Slice` call in `managedLimitGFUHosts`:
ascending host score. -/
def scoreLE (a b : RenterContract × Nat) : Prop :=
  a.2 ≤ b.2

instance scoreLE_decidable : DecidableRel scoreLE :=
  fun a b => inferInstanceAs (Decidable (a.2 ≤ b.2))

instance scoreLE_total : IsTotal (RenterContract × Nat) scoreLE :=
  ⟨fun a b => Nat.le_total a.2 b.2⟩

instance scoreLE_trans : IsTrans (RenterContract × Nat) scoreLE :=
  ⟨fun _ _ _ h1 h2 => Nat.le_trans h1 h2⟩

/-- The `numHosts` map of `managedLimitGFUHosts`: each renter's public key
mapped to its `allowance.Hosts`. -/
def initialBudget (renters : List Renter) : Nat → Option Nat :=
  renters.foldl (fun m r => mapInsert m r.publicKey r.allowance.hosts) (fun _ => none)

/-- The demotion loop of `managedLimitGFUHosts` over the sorted GFU list:
while a renter's budget is positive, decrement it and keep the contract;
afterwards collect the contract's ID for demotion. -/
def gfuDemoteFold : List (RenterContract × Nat) → (Nat → Option Nat) → List Nat →
    (Nat → Option Nat) × List Nat
  | [], budget, demoted => (budget, demoted)
  | cs :: rest, budget, demoted =>
    let key := cs.1.renterPublicKey
    if 0 < (budget key).getD 0 then
      gfuDemoteFold rest (mapInsert budget key ((budget key).getD 0 - 1)) demoted
    else
      gfuDemoteFold rest budget (demoted ++ [cs.1.id])

/-- Model of `managedLimitGFUHosts` from `contractmaintenance.go`: sort the GFU
contracts ascending by host score (Go's `sort.Slice` is modelled by a stable
sort consistent with the comparator), walk the sorted list consuming each
renter's host budget, and clear `GoodForUpload` on the contracts left over. -/
def managedLimitGFUHosts (score : Nat → Option Nat) (renters : List Renter)
    (store : List RenterContract) : List RenterContract :=
  let sorted := (gfuCandidates score store).insertionSort scoreLE
  let demoted := (gfuDemoteFold sorted (initialBudget renters) []).2
  store.map (fun c =>
    if c.id ∈ demoted then
      { c with utility := { c.utility with goodForUpload := false } }
    else c)

/-- A score oracle giving host 6 score 1 and host 7 score 10, used to evaluate
the GFU cap at a concrete input. -/
def c6Score : Nat → Option Nat :=
  fun h => if h = 6 then some 1 else if h = 7 then some 10 else none

/-- A renter with a one-host allowance, used to evaluate the GFU cap at a
concrete input. -/
def c6Renter : Renter :=
  { publicKey := 5, currentPeriod := 0,
    allowance := { funds := 100, hosts := 1, period := 10, renewWindow := 5,
                   maxRPCPrice := 0, maxContractPrice := 0,
                   maxSectorAccessPrice := 0 } }

/-- A GFU contract with the low-scoring host 6, used to evaluate the GFU cap
at a concrete input. -/
def c6A : RenterContract :=
  { id := 1, renterPublicKey := 5, hostPublicKey := 6, startHeight := 0,
    endHeight := 100, fileSize := 0, renterFunds := 0, totalCost := 0,
    uploadSpending := 0, downloadSpending := 0, fundAccountSpending := 0,
    maintenanceSpending := 0,
    utility := { goodForUpload := true, goodForRenew := true, locked := false } }

/-- A GFU contract with the high-scoring host 7, used to evaluate the GFU cap
at a concrete input. -/
def c6B : RenterContract :=
  { id := 2, renterPublicKey := 5, hostPublicKey := 7, startHeight := 0,
    endHeight := 100, fileSize := 0, renterFunds := 0, totalCost := 0,
    uploadSpending := 0, downloadSpending := 0, fundAccountSpending := 0,
    maintenanceSpending := 0,
    utility := { goodForUpload := true, goodForRenew := true, locked := false } }

/-- Model of `fileContractRenewal` from `contractmaintenance.go`: an instruction to
renew a file contract. -/
structure FileContractRenewal where
  id : Nat
  amount : Nat
  renterPubKey : Nat
  hostPubKey : Nat
deriving DecidableEq, Repr

/-- The inputs of a `RenewContracts` pass: the renter, the block height, the
period's `TotalAllocated` spending (`PeriodSpending` is modelled as
non-failing), the host directory, the funding estimator
(`managedEstimateRenewFundingRequirements` with its oracles fixed), the
external constants `MinimumSupportedRenterHostProtocolVersion` and
`smodules.SectorSize`, and the constants `MinContractFundRenewalThreshold`
and `fileContractMinimumFunding` (declared in consts files not among the
provided sources, kept abstract; the code comment documents the threshold
as 3%). -/
structure RenewParams where
  renter : Renter
  blockHeight : Nat
  totalAllocated : Nat
  hostLookup : Nat → Option HostDBEntry
  estimate : RenterContract → Except String Nat
  minVersion : Nat
  sectorSize : Nat
  minThreshold : Rat
  fcmfNum : Nat
  fcmfDen : Nat

/-- The accumulator of the classification loop in `RenewContracts`. -/
structure ClassifyState where
  contractSet : List RenterContract
  renewSet : List FileContractRenewal
  refreshSet : List FileContractRenewal
  fundsRemaining : Nat
deriving Repr

/-- One iteration of the classification loop in `RenewContracts`: skip foreign
or unknown IDs; keep contracts that are still GFU and below the renew window;
recompute `fundsRemaining`; skip filtered, outdated or unknown hosts and
non-GFR contracts; route expiring contracts to the renew set (via the funding
estimator) and under-funded ones to the refresh set with
`max(2 × totalCost, minimum)`.  `percentRemaining`, a float64 in the source,
is modelled as an exact rational. -/
def classifyStep (p : RenewParams) (store : List RenterContract)
    (st : ClassifyState) (fcid : Nat) : ClassifyState :=
  match storeView store fcid with
  | none => st
  | some rc =>
    if rc.renterPublicKey ≠ p.renter.publicKey then st
    else
      let cu := rc.utility
      if p.blockHeight + p.renter.allowance.renewWindow < rc.endHeight ∧
          cu.goodForUpload then
        { st with contractSet := st.contractSet ++ [rc] }
      else
        let fundsRemaining :=
          computeFundsRemaining p.renter.allowance.funds p.totalAllocated
        match p.hostLookup rc.hostPublicKey with
        | none => { st with fundsRemaining := fundsRemaining }
        | some host =>
          if host.filtered = true then { st with fundsRemaining := fundsRemaining }
          else if host.version < p.minVersion then
            { st with fundsRemaining := fundsRemaining }
          else if cu.goodForRenew = false then
            { st with fundsRemaining := fundsRemaining }
          else if p.blockHeight + p.renter.allowance.renewWindow ≥ rc.endHeight then
            match p.estimate rc with
            | .error _ => { st with fundsRemaining := fundsRemaining }
            | .ok renewAmount =>
              { st with
                fundsRemaining := fundsRemaining,
                renewSet := st.renewSet ++
                  [{ id := rc.id, amount := renewAmount,
                     renterPubKey := p.renter.publicKey,
                     hostPubKey := rc.hostPublicKey }] }
          else
            let blockBytes := p.sectorSize * p.renter.allowance.period
            let sectorStoragePrice := host.settings.storagePrice * blockBytes
            let sectorUploadBandwidthPrice :=
              host.settings.uploadBandwidthPrice * p.sectorSize
            let sectorDownloadBandwidthPrice :=
              host.settings.downloadBandwidthPrice * p.sectorSize
            let sectorBandwidthPrice :=
              sectorUploadBandwidthPrice + sectorDownloadBandwidthPrice
            let sectorPrice := sectorStoragePrice + sectorBandwidthPrice
            let percentRemaining : Rat :=
              (rc.renterFunds : Rat) / (rc.totalCost : Rat)
            if rc.renterFunds < sectorPrice * 3 ∨
                percentRemaining < p.minThreshold then
              let refreshAmount :=
                if rc.totalCost * 2 <
                    minimumFunding p.renter.allowance p.fcmfNum p.fcmfDen then
                  minimumFunding p.renter.allowance p.fcmfNum p.fcmfDen
                else rc.totalCost * 2
              { st with
                fundsRemaining := fundsRemaining,
                refreshSet := st.refreshSet ++
                  [{ id := rc.id, amount := refreshAmount,
                     renterPubKey := p.renter.publicKey,
                     hostPubKey := rc.hostPublicKey }] }
            else { st with fundsRemaining := fundsRemaining }

/-- The classification phase of `RenewContracts`: fold the classifier over
the submitted contract IDs in order. -/
def RenewContracts (p : RenewParams) (store : List RenterContract)
    (ids : List Nat) : ClassifyState :=
  ids.foldl (classifyStep p store)
    { contractSet := [], renewSet := [], refreshSet := [], fundsRemaining := 0 }

/-- The order in which the processing phase of `RenewContracts` attempts
renewals: the whole renew set first, then the whole refresh set. -/
def renewalAttemptOrder (st : ClassifyState) : List FileContractRenewal :=
  st.renewSet ++ st.refreshSet

/-- The end-of-pass reset of `numFailedRenews` in `RenewContracts`: rebuild
the map from scratch, copying only the entries whose ID appears in the renew
set or the refresh set. -/
def resetFailedRenews (old : Nat → Option Nat)
    (renewIds refreshIds : List Nat) : Nat → Option Nat :=
  let m1 : Nat → Option Nat := renewIds.foldl
    (fun (m : Nat → Option Nat) (i : Nat) =>
      match old i with
      | none => m
      | some v => mapInsert m i v) (fun _ => none)
  refreshIds.foldl
    (fun (m : Nat → Option Nat) (i : Nat) =>
      match old i with
      | none => m
      | some v => mapInsert m i v) m1

/-- A GFU, GFR contract with exhausted funds but outside its renew window,
used to evaluate the classifier at a concrete input. -/
def c7Old : RenterContract :=
  { id := 1, renterPublicKey := 5, hostPublicKey := 6, startHeight := 10,
    endHeight := 1000, fileSize := 0, renterFunds := 0, totalCost := 100,
    uploadSpending := 0, downloadSpending := 0, fundAccountSpending := 0,
    maintenanceSpending := 0,
    utility := { goodForUpload := true, goodForRenew := true, locked := false } }

/-- Contract `c7Old` with `GoodForUpload` cleared, used to evaluate the classifier at
a concrete input. -/
def c7OldNoGFU : RenterContract :=
  { c7Old with utility :=
    { goodForUpload := false, goodForRenew := true, locked := false } }

/-- The host entry served by `c7Params.hostLookup`. -/
def c7Host : HostDBEntry :=
  { filtered := false,
    settings := { baseRPCPrice := 0, contractPrice := 0, sectorAccessPrice := 0,
                  storagePrice := 1, uploadBandwidthPrice := 0,
                  downloadBandwidthPrice := 0, maxDuration := 0 },
    version := 3, maxCollateral := 0 }

/-- A renewal pass at height 100 with a well-behaved host and a 3% refresh
threshold, used to evaluate the classifier at a concrete input. -/
def c7Params : RenewParams :=
  { renter := c6Renter, blockHeight := 100, totalAllocated := 0,
    hostLookup := fun _ => some c7Host,
    estimate := fun _ => .ok 42, minVersion := 2, sectorSize := 1,
    minThreshold := 3 / 100, fcmfNum := 3, fcmfDen := 20 }

/-- A host entry with all prices zero, used to evaluate the estimator at a
concrete input. -/
def c4Host : HostDBEntry :=
  { filtered := false,
    settings := { baseRPCPrice := 0, contractPrice := 0, sectorAccessPrice := 0,
                  storagePrice := 0, uploadBandwidthPrice := 0,
                  downloadBandwidthPrice := 0, maxDuration := 0 },
    version := 0, maxCollateral := 0 }

/-- An allowance with funds 100 over 2 hosts, used to evaluate the estimator
at a concrete input. -/
def c4Allowance : Allowance :=
  { funds := 100, hosts := 2, period := 10, renewWindow := 5,
    maxRPCPrice := 0, maxContractPrice := 0, maxSectorAccessPrice := 0 }

/-- A renter owning `c4Allowance`, used to evaluate the estimator at a
concrete input. -/
def c4Renter : Renter :=
  { publicKey := 1, currentPeriod := 0, allowance := c4Allowance }

/-- A contract with no stored data and no recorded spending, used to evaluate
the estimator at a concrete input. -/
def c4Contract : RenterContract :=
  { id := 7, renterPublicKey := 1, hostPublicKey := 2, startHeight := 0,
    endHeight := 100, fileSize := 0, renterFunds := 0, totalCost := 0,
    uploadSpending := 0, downloadSpending := 0, fundAccountSpending := 0,
    maintenanceSpending := 0,
    utility := { goodForUpload := true, goodForRenew := true, locked := false } }

end SiaSatellite

namespace SiaSatellitePortal

/-- An `item` from the portal payment handler. -/
structure Item where
  id : String
deriving DecidableEq, Repr

/-- Model of `calculateOrderAmount` from the portal payment handler: the order amount
is the constant `500` regardless of the submitted items. -/
def calculateOrderAmount (_items : List Item) : Int :=
  500

/-- The amount/currency pair of the `stripe.PaymentIntentParams` built by
`paymentHandlerPOST`. -/
structure PaymentIntentParams where
  amount : Int
  currency : String
deriving DecidableEq, Repr

/-- The payment-intent parameters `paymentHandlerPOST` constructs from the
decoded items of a request. -/
def paymentIntentParamsOf (items : List Item) : PaymentIntentParams :=
  { amount := calculateOrderAmount items, currency := "usd" }

end SiaSatellitePortal

namespace SiaSatellite

/-- Claim C3: the form-time gouging check rejects exactly when some non-zero
ceiling (MaxRPCPrice against the base RPC price, or MaxContractPrice against
the contract price) is strictly less than the quoted price, while the
payment-contract gouging check, over the same ceilings plus
MaxSectorAccessPrice against the sector-access price, rejects exactly when
some non-zero ceiling is less than or equal to the quoted price. -/
theorem gouging_dual_thresholds (allowance : Allowance)
    (hostSettings : HostExternalSettings) :
    (checkFormContractGouging allowance hostSettings ≠ none ↔
      ((allowance.maxRPCPrice ≠ 0 ∧ allowance.maxRPCPrice < hostSettings.baseRPCPrice) ∨
       (allowance.maxContractPrice ≠ 0 ∧
         allowance.maxContractPrice < hostSettings.contractPrice))) ∧
    (staticCheckFormPaymentContractGouging allowance hostSettings ≠ none ↔
      ((allowance.maxRPCPrice ≠ 0 ∧ allowance.maxRPCPrice ≤ hostSettings.baseRPCPrice) ∨
       (allowance.maxContractPrice ≠ 0 ∧
         allowance.maxContractPrice ≤ hostSettings.contractPrice) ∨
       (allowance.maxSectorAccessPrice ≠ 0 ∧
         allowance.maxSectorAccessPrice ≤ hostSettings.sectorAccessPrice))) := by
  constructor
  · unfold checkFormContractGouging
    split
    · simp_all
    · split <;> simp_all
  · unfold staticCheckFormPaymentContractGouging
    split
    · simp_all
    · split
      · simp_all
      · split <;> simp_all

/-- Claim C9: in both `FormContracts` and `RenewContracts`, the remaining
funds are `allowance.Funds - TotalAllocated` exactly when `TotalAllocated`
is strictly below `allowance.Funds`, and otherwise the subtraction is skipped
and the batch proceeds with the full `allowance.Funds`. -/
theorem fundsRemaining_underflow_guard (allowanceFunds totalAllocated : Nat) :
    (totalAllocated < allowanceFunds →
      computeFundsRemaining allowanceFunds totalAllocated =
        allowanceFunds - totalAllocated) ∧
    (allowanceFunds ≤ totalAllocated →
      computeFundsRemaining allowanceFunds totalAllocated = allowanceFunds) := by
  unfold computeFundsRemaining
  constructor
  · intro h
    simp [h]
  · intro h
    simp [Nat.not_lt.mpr h]

/-- A natural number clamped from below is at least the floor. -/
theorem le_ite_clamp (e m : Nat) : m ≤ if e < m then m else e := by
  split
  · exact Nat.le_refl m
  · omega

/-- Claim C4: whenever the renew-funding estimator returns without error for a
renter with positive allowance funds and a positive host count, the returned
amount is at least `allowance.Funds × fileContractMinimumFunding ÷
allowance.Hosts`. -/
theorem estimator_lower_bound
    (hostLookup : Nat → Option HostDBEntry) (renters : Nat → Option Renter)
    (renewedFrom : Nat → Option Nat) (oldContracts : Nat → Option RenterContract)
    (tax : Nat → Nat → Nat) (maxTxnFee txnSetSize fcmfNum fcmfDen : Nat)
    (contract : RenterContract) (blockHeight : Nat) (allowance : Allowance)
    (result : Nat)
    (hfunds : 0 < allowance.funds) (hhosts : 0 < allowance.hosts)
    (hok : managedEstimateRenewFundingRequirements hostLookup renters renewedFrom
      oldContracts tax maxTxnFee txnSetSize fcmfNum fcmfDen contract blockHeight
      allowance = .ok result) :
    minimumFunding allowance fcmfNum fcmfDen ≤ result := by
  simp only [managedEstimateRenewFundingRequirements] at hok
  cases h1 : hostLookup contract.hostPublicKey with
  | none => rw [h1] at hok; exact absurd hok (by simp)
  | some host =>
    rw [h1] at hok
    by_cases h2 : host.filtered
    · simp [h2] at hok
    · simp only [h2, if_false, Bool.false_eq_true] at hok
      cases h3 : renters contract.renterPublicKey with
      | none => rw [h3] at hok; exact absurd hok (by simp)
      | some renter =>
        rw [h3] at hok
        simp only [Except.ok.injEq] at hok
        rw [← hok]
        exact le_ite_clamp _ _

/-- Witness for `estimator_lower_bound` at a concrete input: with zero host
prices the estimate is exactly the minimum-funding floor `100 * 3 / 20 / 2`. -/
theorem estimator_lower_bound_witness :
    minimumFunding c4Allowance 3 20 ≤ 7 :=
  estimator_lower_bound (fun _ => some c4Host) (fun _ => some c4Renter)
    (fun _ => none) (fun _ => none) (fun _ _ => 0) 0 0 3 20 c4Contract 50
    c4Allowance 7 (by decide) (by decide) rfl

/-- Witness for `fundsRemaining_underflow_guard` at a concrete input. -/
theorem fundsRemaining_underflow_guard_witness :
    computeFundsRemaining 10 3 = 7 ∧ computeFundsRemaining 10 12 = 10 :=
  ⟨(fundsRemaining_underflow_guard 10 3).1 (by decide),
   (fundsRemaining_underflow_guard 10 12).2 (by decide)⟩

/-- A successful `storeView` returns a live contract with the requested ID. -/
theorem storeView_eq_some {S : List RenterContract} {fcid : Nat}
    {c : RenterContract} (h : storeView S fcid = some c) : c ∈ S ∧ c.id = fcid := by
  unfold storeView at h
  refine ⟨List.mem_of_find?_eq_some h, ?_⟩
  have hp := List.find?_some h
  simpa using hp

/-- Claim C2 fails on the code: when the post-renewal utility update on the
new contract fails, `managedRenewContract` still returns a nil error but
performs none of the claimed bookkeeping — no lineage entry, no archive
entry, and the old contract `c2Old` stays live with its utility untouched. -/
theorem renew_success_counterexample :
    (managedRenewContract c2St 1 50 100 10 3
      (.success c2New false true)).2.2 = none ∧
    (managedRenewContract c2St 1 50 100 10 3
      (.success c2New false true)).1.renewedTo 1 = none ∧
    (managedRenewContract c2St 1 50 100 10 3
      (.success c2New false true)).1.renewedFrom c2New.id = none ∧
    (managedRenewContract c2St 1 50 100 10 3
      (.success c2New false true)).1.oldContracts 1 = none ∧
    c2Old ∈ (managedRenewContract c2St 1 50 100 10 3
      (.success c2New false true)).1.store ∧
    c2Old.utility.locked = false := by
  decide

/-- Claim C2 (amended): when `managedRenewContract` returns a nil error and
both post-renewal utility updates succeed, the old contract is archived with
utility `¬GFU ∧ ¬GFR ∧ Locked`, the lineage maps link old and new IDs, the
old contract is deleted from the live store, and the new contract is live
with utility `GFU ∧ GFR ∧ ¬Locked`.  (The source's nil-error early returns
at a failed utility update skip this bookkeeping.) -/
theorem renew_success_postconditions (st : RenewState)
    (instrId amount blockHeight renewWindow crbr : Nat)
    (newContract old : RenterContract)
    (hold : storeView st.store instrId = some old)
    (hnewid : newContract.id ≠ instrId) :
    (managedRenewContract st instrId amount blockHeight renewWindow crbr
      (.success newContract true true)).2.2 = none ∧
    (managedRenewContract st instrId amount blockHeight renewWindow crbr
      (.success newContract true true)).2.1 = amount ∧
    (managedRenewContract st instrId amount blockHeight renewWindow crbr
      (.success newContract true true)).1.oldContracts instrId =
      some { old with utility :=
        { goodForUpload := false, goodForRenew := false, locked := true } } ∧
    (managedRenewContract st instrId amount blockHeight renewWindow crbr
      (.success newContract true true)).1.renewedFrom newContract.id = some instrId ∧
    (managedRenewContract st instrId amount blockHeight renewWindow crbr
      (.success newContract true true)).1.renewedTo instrId = some newContract.id ∧
    (∀ c ∈ (managedRenewContract st instrId amount blockHeight renewWindow crbr
      (.success newContract true true)).1.store, c.id ≠ instrId) ∧
    { newContract with utility :=
        { goodForUpload := true, goodForRenew := true, locked := false } } ∈
      (managedRenewContract st instrId amount blockHeight renewWindow crbr
        (.success newContract true true)).1.store := by
  have hviewApp : storeView (st.store ++ [newContract]) instrId = some old := by
    unfold storeView at hold ⊢
    rw [List.find?_append, hold]
    rfl
  simp only [managedRenewContract, hviewApp]
  refine ⟨by trivial, by trivial, ?_, ?_, ?_, ?_, ?_⟩
  · simp [mapInsert]
  · simp [mapInsert]
  · simp [mapInsert]
  · intro c hc
    simp only [List.mem_filter, bne_iff_ne, ne_eq] at hc
    exact hc.2
  · have h1 : newContract ∈ st.store ++ [newContract] :=
      List.mem_append_right _ (List.mem_singleton.mpr rfl)
    have h2 : ({ newContract with utility :=
        { goodForUpload := true, goodForRenew := true, locked := false } } :
          RenterContract) ∈
        updateUtility (st.store ++ [newContract]) newContract.id
          { goodForUpload := true, goodForRenew := true, locked := false } := by
      unfold updateUtility
      have hmap := List.mem_map_of_mem
        (fun c => if c.id = newContract.id then
          { c with utility :=
            { goodForUpload := true, goodForRenew := true, locked := false } }
          else c) h1
      simpa using hmap
    have h3 : ({ newContract with utility :=
        { goodForUpload := true, goodForRenew := true, locked := false } } :
          RenterContract) ∈
        updateUtility (updateUtility (st.store ++ [newContract]) newContract.id
          { goodForUpload := true, goodForRenew := true, locked := false })
          instrId
          { goodForUpload := false, goodForRenew := false, locked := true } := by
      unfold updateUtility
      have hmap := List.mem_map_of_mem
        (fun c => if c.id = instrId then
          { c with utility :=
            { goodForUpload := false, goodForRenew := false, locked := true } }
          else c) h2
      simpa [hnewid] using hmap
    rw [List.mem_filter]
    exact ⟨h3, by simpa using hnewid⟩

/-- Witness for `renew_success_postconditions`: renewing `c2Old` into `c2New`
archives and unlists the old contract and lists the new one as good. -/
theorem renew_success_postconditions_witness :
    (managedRenewContract c2St 1 50 100 10 3 (.success c2New true true)).2.2 = none ∧
    (managedRenewContract c2St 1 50 100 10 3 (.success c2New true true)).2.1 = 50 ∧
    (managedRenewContract c2St 1 50 100 10 3 (.success c2New true true)).1.oldContracts 1 =
      some { c2Old with utility :=
        { goodForUpload := false, goodForRenew := false, locked := true } } ∧
    (managedRenewContract c2St 1 50 100 10 3 (.success c2New true true)).1.renewedFrom
      c2New.id = some 1 ∧
    (managedRenewContract c2St 1 50 100 10 3 (.success c2New true true)).1.renewedTo 1 =
      some c2New.id ∧
    (∀ c ∈ (managedRenewContract c2St 1 50 100 10 3
      (.success c2New true true)).1.store, c.id ≠ 1) ∧
    { c2New with utility :=
        { goodForUpload := true, goodForRenew := true, locked := false } } ∈
      (managedRenewContract c2St 1 50 100 10 3 (.success c2New true true)).1.store :=
  renew_success_postconditions c2St 1 50 100 10 3 c2New c2Old rfl (by decide)

/-- Claim C5: on a failed renewal, `numFailedRenews` for the contract is
incremented exactly when the failure is the host's fault, and the contract's
utility is set to `Locked ∧ ¬GFR ∧ ¬GFU` exactly when an entry is recorded,
the second half of the renew window has been reached
(`blockHeight + renewWindow/2 ≥ endHeight`), and the failure count has
reached `consecutiveRenewalsBeforeReplacement`; otherwise the store is left
unchanged.  The call always returns a non-nil error and zero funds spent. -/
theorem renew_failure_handling (st : RenewState)
    (instrId amount blockHeight renewWindow crbr : Nat) (hostsFault : Bool)
    (old : RenterContract)
    (hold : storeView st.store instrId = some old) :
    (hostsFault = true →
      (managedRenewContract st instrId amount blockHeight renewWindow crbr
        (.failure hostsFault)).1.numFailedRenews instrId =
        some ((st.numFailedRenews instrId).getD 0 + 1)) ∧
    (hostsFault = false →
      (managedRenewContract st instrId amount blockHeight renewWindow crbr
        (.failure hostsFault)).1.numFailedRenews = st.numFailedRenews) ∧
    ((((managedRenewContract st instrId amount blockHeight renewWindow crbr
        (.failure hostsFault)).1.numFailedRenews instrId).isSome ∧
      old.endHeight ≤ blockHeight + renewWindow / 2 ∧
      crbr ≤ ((managedRenewContract st instrId amount blockHeight renewWindow crbr
        (.failure hostsFault)).1.numFailedRenews instrId).getD 0) →
      (managedRenewContract st instrId amount blockHeight renewWindow crbr
        (.failure hostsFault)).1.store =
        updateUtility st.store instrId
          { goodForUpload := false, goodForRenew := false, locked := true }) ∧
    (¬(((managedRenewContract st instrId amount blockHeight renewWindow crbr
        (.failure hostsFault)).1.numFailedRenews instrId).isSome ∧
      old.endHeight ≤ blockHeight + renewWindow / 2 ∧
      crbr ≤ ((managedRenewContract st instrId amount blockHeight renewWindow crbr
        (.failure hostsFault)).1.numFailedRenews instrId).getD 0) →
      (managedRenewContract st instrId amount blockHeight renewWindow crbr
        (.failure hostsFault)).1.store = st.store) ∧
    (managedRenewContract st instrId amount blockHeight renewWindow crbr
      (.failure hostsFault)).2.2 ≠ none ∧
    (managedRenewContract st instrId amount blockHeight renewWindow crbr
      (.failure hostsFault)).2.1 = 0 := by
  cases hostsFault with
  | false =>
    simp only [managedRenewContract, hold, Bool.cond_false]
    by_cases hcond : (st.numFailedRenews instrId).isSome = true ∧
        old.endHeight ≤ blockHeight + renewWindow / 2 ∧
        crbr ≤ (st.numFailedRenews instrId).getD 0
    · rw [if_pos hcond]
      exact ⟨fun h => absurd h (by decide), fun _ => rfl, fun _ => rfl,
        fun hc => absurd hcond hc, by simp, rfl⟩
    · rw [if_neg hcond]
      exact ⟨fun h => absurd h (by decide), fun _ => rfl,
        fun hc => absurd hc hcond, fun _ => rfl, by simp, rfl⟩
  | true =>
    simp only [managedRenewContract, hold, Bool.cond_true]
    by_cases hcond : ((mapInsert st.numFailedRenews instrId
          ((st.numFailedRenews instrId).getD 0 + 1)) instrId).isSome = true ∧
        old.endHeight ≤ blockHeight + renewWindow / 2 ∧
        crbr ≤ ((mapInsert st.numFailedRenews instrId
          ((st.numFailedRenews instrId).getD 0 + 1)) instrId).getD 0
    · rw [if_pos hcond]
      exact ⟨fun _ => by simp [mapInsert], fun h => absurd h (by decide),
        fun _ => rfl, fun hc => absurd hcond hc, by simp, rfl⟩
    · rw [if_neg hcond]
      exact ⟨fun _ => by simp [mapInsert], fun h => absurd h (by decide),
        fun hc => absurd hc hcond, fun _ => rfl, by simp, rfl⟩

/-- Witness for `renew_failure_handling`: with five prior failures recorded,
a sixth host-fault failure at height 195 (end height 200, window 10,
threshold 3) locks `c2Old`. -/
theorem renew_failure_handling_witness :
    (true = true →
      (managedRenewContract c5St 1 0 195 10 3
        (.failure true)).1.numFailedRenews 1 =
        some ((c5St.numFailedRenews 1).getD 0 + 1)) ∧
    (true = false →
      (managedRenewContract c5St 1 0 195 10 3
        (.failure true)).1.numFailedRenews = c5St.numFailedRenews) ∧
    ((((managedRenewContract c5St 1 0 195 10 3
        (.failure true)).1.numFailedRenews 1).isSome ∧
      c2Old.endHeight ≤ 195 + 10 / 2 ∧
      3 ≤ ((managedRenewContract c5St 1 0 195 10 3
        (.failure true)).1.numFailedRenews 1).getD 0) →
      (managedRenewContract c5St 1 0 195 10 3 (.failure true)).1.store =
        updateUtility c5St.store 1
          { goodForUpload := false, goodForRenew := false, locked := true }) ∧
    (¬(((managedRenewContract c5St 1 0 195 10 3
        (.failure true)).1.numFailedRenews 1).isSome ∧
      c2Old.endHeight ≤ 195 + 10 / 2 ∧
      3 ≤ ((managedRenewContract c5St 1 0 195 10 3
        (.failure true)).1.numFailedRenews 1).getD 0) →
      (managedRenewContract c5St 1 0 195 10 3 (.failure true)).1.store =
        c5St.store) ∧
    (managedRenewContract c5St 1 0 195 10 3 (.failure true)).2.2 ≠ none ∧
    (managedRenewContract c5St 1 0 195 10 3 (.failure true)).2.1 = 0 :=
  renew_failure_handling c5St 1 0 195 10 3 true c2Old rfl

/-- Contracts in a store with distinct IDs are determined by their ID. -/
theorem store_id_inj {S : List RenterContract}
    (hnd : (S.map RenterContract.id).Nodup) {a b : RenterContract}
    (ha : a ∈ S) (hb : b ∈ S) (hid : a.id = b.id) : a = b :=
  List.inj_on_of_nodup_map hnd ha hb hid

/-- In a store with distinct IDs, viewing a live contract by its ID finds it. -/
theorem storeView_mem (S : List RenterContract)
    (hnd : (S.map RenterContract.id).Nodup) (c : RenterContract) (hc : c ∈ S) :
    storeView S c.id = some c := by
  induction S with
  | nil => exact absurd hc (List.not_mem_nil c)
  | cons h t ih =>
    rw [List.map_cons, List.nodup_cons] at hnd
    rcases List.mem_cons.mp hc with rfl | hct
    · simp [storeView]
    · have hne : h.id ≠ c.id := by
        intro he
        apply hnd.1
        rw [he]
        exact List.mem_map_of_mem RenterContract.id hct
      have ht := ih hnd.2 hct
      simp only [storeView] at ht ⊢
      rw [List.find?_cons_of_neg _ (by simp [hne]), ht]

/-- Recording a fresh `(renter, host)` key preserves the dedup invariant. -/
theorem dedupInv_fresh (p : Nat × Nat → Option Nat) (S : List RenterContract)
    (t : RenterContract) (rest : List RenterContract)
    (h : DedupInv p S (t :: rest)) (hp : p (contractKey t) = none) :
    DedupInv (mapInsert p (contractKey t) t.id) S rest := by
  have htS : t ∈ S := h.todoLive t (List.mem_cons_self t rest)
  have htid : t.id ∉ rest.map RenterContract.id := by
    have h2 := h.todoIds
    rw [List.map_cons, List.nodup_cons] at h2
    exact h2.1
  have hrest : (rest.map RenterContract.id).Nodup := by
    have h2 := h.todoIds
    rw [List.map_cons, List.nodup_cons] at h2
    exact h2.2
  refine ⟨h.idsNodup, ?_, hrest, ?_, ?_⟩
  · intro r hr
    exact h.todoLive r (List.mem_cons_of_mem t hr)
  · intro k fcid hk
    unfold mapInsert at hk
    by_cases hkk : k = contractKey t
    · rw [if_pos hkk] at hk
      injection hk with hk
      exact ⟨t, htS, hk, hkk.symm, htid⟩
    · rw [if_neg hkk] at hk
      obtain ⟨c, hcS, hcid, hckey, hcnot⟩ := h.lookupSound k fcid hk
      refine ⟨c, hcS, hcid, hckey, fun hmem => hcnot ?_⟩
      rw [List.map_cons]
      exact List.mem_cons_of_mem _ hmem
  · intro c hcS hcnot
    by_cases hct : c.id = t.id
    · have hceq : c = t := store_id_inj h.idsNodup hcS htS hct
      subst hceq
      unfold mapInsert
      rw [if_pos rfl]
    · have hcnot2 : c.id ∉ (t :: rest).map RenterContract.id := by
        rw [List.map_cons]
        intro hmem
        rcases List.mem_cons.mp hmem with he | hm
        · exact hct he
        · exact hcnot hm
      have hreg := h.processedReg c hcS hcnot2
      unfold mapInsert
      by_cases hck : contractKey c = contractKey t
      · rw [hck] at hreg
        rw [hreg] at hp
        exact absurd hp (by simp)
      · rw [if_neg hck]
        exact hreg

/-- Resolving a duplicate pair (deleting loser `oc`, keeping winner `nc`)
preserves the dedup invariant. -/
theorem dedupInv_resolve (p : Nat × Nat → Option Nat) (S : List RenterContract)
    (t rc : RenterContract) (rest : List RenterContract)
    (h : DedupInv p S (t :: rest))
    (hrcS : rc ∈ S) (hrckey : contractKey rc = contractKey t)
    (hrcnot : rc.id ∉ (t :: rest).map RenterContract.id)
    (hplook : p (contractKey t) = some rc.id)
    (nc oc : RenterContract)
    (hpair : (nc = rc ∧ oc = t) ∨ (nc = t ∧ oc = rc)) :
    DedupInv (mapInsert p (contractKey t) nc.id)
      (S.filter (fun c => c.id != oc.id)) rest := by
  have htS : t ∈ S := h.todoLive t (List.mem_cons_self t rest)
  have htid : t.id ∉ rest.map RenterContract.id := by
    have h2 := h.todoIds
    rw [List.map_cons, List.nodup_cons] at h2
    exact h2.1
  have hrest : (rest.map RenterContract.id).Nodup := by
    have h2 := h.todoIds
    rw [List.map_cons, List.nodup_cons] at h2
    exact h2.2
  have hrct : rc.id ≠ t.id := by
    intro he
    apply hrcnot
    rw [List.map_cons, he]
    exact List.mem_cons_self _ _
  have hrcrest : rc.id ∉ rest.map RenterContract.id := by
    intro hm
    apply hrcnot
    rw [List.map_cons]
    exact List.mem_cons_of_mem _ hm
  have hmemf : ∀ c : RenterContract,
      c ∈ S.filter (fun c => c.id != oc.id) ↔ c ∈ S ∧ c.id ≠ oc.id := by
    intro c
    simp [List.mem_filter]
  refine ⟨?_, ?_, hrest, ?_, ?_⟩
  · exact h.idsNodup.sublist ((List.filter_sublist S).map RenterContract.id)
  · intro r hr
    rw [hmemf]
    refine ⟨h.todoLive r (List.mem_cons_of_mem t hr), ?_⟩
    have hrid : r.id ∈ rest.map RenterContract.id :=
      List.mem_map_of_mem RenterContract.id hr
    rcases hpair with ⟨hnc, hoc⟩ | ⟨hnc, hoc⟩
    · rw [hoc]
      intro he
      exact htid (he ▸ hrid)
    · rw [hoc]
      intro he
      exact hrcrest (he ▸ hrid)
  · intro k fcid hk
    unfold mapInsert at hk
    by_cases hkk : k = contractKey t
    · rw [if_pos hkk] at hk
      injection hk with hk
      refine ⟨nc, ?_, hk, ?_, ?_⟩
      · rw [hmemf]
        rcases hpair with ⟨hnc, hoc⟩ | ⟨hnc, hoc⟩
        · rw [hnc, hoc]
          exact ⟨hrcS, hrct⟩
        · rw [hnc, hoc]
          exact ⟨htS, fun he => hrct he.symm⟩
      · rcases hpair with ⟨hnc, _⟩ | ⟨hnc, _⟩
        · rw [hnc, hrckey, hkk]
        · rw [hnc, hkk]
      · rcases hpair with ⟨hnc, _⟩ | ⟨hnc, _⟩
        · rw [hnc]
          exact hrcrest
        · rw [hnc]
          exact htid
    · rw [if_neg hkk] at hk
      obtain ⟨c, hcS, hcid, hckey, hcnot⟩ := h.lookupSound k fcid hk
      refine ⟨c, ?_, hcid, hckey, fun hmem => hcnot ?_⟩
      · rw [hmemf]
        refine ⟨hcS, ?_⟩
        rcases hpair with ⟨_, hoc⟩ | ⟨_, hoc⟩
        · rw [hoc]
          intro he
          apply hcnot
          rw [List.map_cons, he]
          exact List.mem_cons_self _ _
        · rw [hoc]
          intro he
          have hcrc : c = rc := store_id_inj h.idsNodup hcS hrcS he
          apply hkk
          rw [← hckey, hcrc, hrckey]
      · rw [List.map_cons]
        exact List.mem_cons_of_mem _ hmem
  · intro c hcf hcnot
    rw [hmemf] at hcf
    obtain ⟨hcS, hcoc⟩ := hcf
    by_cases hck : contractKey c = contractKey t
    · have hcnc : c = nc := by
        by_cases hct : c.id = t.id
        · have hceq : c = t := store_id_inj h.idsNodup hcS htS hct
          rcases hpair with ⟨hnc, hoc⟩ | ⟨hnc, hoc⟩
          · exact absurd (hceq.symm ▸ hoc.symm ▸ rfl : c.id = oc.id) hcoc
          · rw [hceq, hnc]
        · have hcnot2 : c.id ∉ (t :: rest).map RenterContract.id := by
            rw [List.map_cons]
            intro hmem
            rcases List.mem_cons.mp hmem with he | hm
            · exact hct he
            · exact hcnot hm
          have hreg := h.processedReg c hcS hcnot2
          rw [hck, hplook] at hreg
          injection hreg with hreg
          have hcrc : c = rc := store_id_inj h.idsNodup hcS hrcS hreg.symm
          rcases hpair with ⟨hnc, hoc⟩ | ⟨hnc, hoc⟩
          · rw [hcrc, hnc]
          · exact absurd (hcrc.symm ▸ hoc.symm ▸ rfl : c.id = oc.id) hcoc
      unfold mapInsert
      rw [hck, if_pos rfl, hcnc]
    · have hct : c.id ≠ t.id := by
        intro he
        exact hck (store_id_inj h.idsNodup hcS htS he ▸ rfl)
      have hcnot2 : c.id ∉ (t :: rest).map RenterContract.id := by
        rw [List.map_cons]
        intro hmem
        rcases List.mem_cons.mp hmem with he | hm
        · exact hct he
        · exact hcnot hm
      have hreg := h.processedReg c hcS hcnot2
      unfold mapInsert
      rw [if_neg hck]
      exact hreg

/-- One dedup step preserves the invariant, discharging the unprocessed head. -/
theorem dedupStep_inv (p : Nat × Nat → Option Nat) (st : DedupState)
    (t : RenterContract) (rest : List RenterContract)
    (h : DedupInv p st.store (t :: rest)) :
    DedupInv (dedupStep p st t).1 (dedupStep p st t).2.store rest := by
  cases hp : p (contractKey t) with
  | none =>
    have heq : dedupStep p st t = (mapInsert p (contractKey t) t.id, st) := by
      simp only [dedupStep, hp]
    rw [heq]
    exact dedupInv_fresh p st.store t rest h hp
  | some fcid =>
    obtain ⟨rc, hrcS, hrcid, hrckey, hrcnot⟩ := h.lookupSound _ _ hp
    subst hrcid
    have hview : storeView st.store rc.id = some rc :=
      storeView_mem _ h.idsNodup rc hrcS
    by_cases hle : t.startHeight ≤ rc.startHeight
    · have hocview : storeView st.store t.id = some t :=
        storeView_mem _ h.idsNodup t (h.todoLive t (List.mem_cons_self t rest))
      have heq : dedupStep p st t = (mapInsert p (contractKey t) rc.id,
          { store := st.store.filter (fun c => c.id != t.id),
            renewedFrom := mapInsert st.renewedFrom rc.id t.id,
            renewedTo := mapInsert st.renewedTo t.id rc.id,
            oldContracts := mapInsert st.oldContracts t.id t }) := by
        simp only [dedupStep, hp, hview, if_pos hle, hocview]
      rw [heq]
      exact dedupInv_resolve p st.store t rc rest h hrcS hrckey hrcnot hp rc t
        (Or.inl ⟨rfl, rfl⟩)
    · have heq : dedupStep p st t = (mapInsert p (contractKey t) t.id,
          { store := st.store.filter (fun c => c.id != rc.id),
            renewedFrom := mapInsert st.renewedFrom t.id rc.id,
            renewedTo := mapInsert st.renewedTo rc.id t.id,
            oldContracts := mapInsert st.oldContracts rc.id rc }) := by
        simp only [dedupStep, hp, hview, if_neg hle]
      rw [heq]
      exact dedupInv_resolve p st.store t rc rest h hrcS hrckey hrcnot hp t rc
        (Or.inr ⟨rfl, rfl⟩)

/-- Folding the dedup step over the whole snapshot preserves the invariant. -/
theorem dedupFold_inv (todo : List RenterContract) :
    ∀ (p : Nat × Nat → Option Nat) (st : DedupState), DedupInv p st.store todo →
    DedupInv
      ((todo.foldl (fun acc c => dedupStep acc.1 acc.2 c) (p, st)).1)
      ((todo.foldl (fun acc c => dedupStep acc.1 acc.2 c) (p, st)).2.store) [] := by
  induction todo with
  | nil =>
    intro p st h
    simpa using h
  | cons t rest ih =>
    intro p st h
    rw [List.foldl_cons]
    exact ih (dedupStep p st t).1 (dedupStep p st t).2 (dedupStep_inv p st t rest h)

/-- The invariant holds at the start of `managedCheckForDuplicates`. -/
theorem dedupInv_init (st : DedupState)
    (h : (st.store.map RenterContract.id).Nodup) :
    DedupInv (fun _ => none) st.store st.store :=
  ⟨h, fun _ ht => ht, h, fun _ _ hk => absurd hk (by simp),
   fun c hc hnot => absurd (List.mem_map_of_mem RenterContract.id hc) hnot⟩

/-- Looking a Go-map insertion up at the inserted key yields the new value. -/
theorem mapInsert_self {α β : Type} [DecidableEq α] (f : α → Option β)
    (k : α) (v : β) : mapInsert f k v k = some v := by
  unfold mapInsert
  rw [if_pos rfl]

/-- Looking a Go-map insertion up at another key is unchanged. -/
theorem mapInsert_ne {α β : Type} [DecidableEq α] (f : α → Option β)
    (k x : α) (v : β) (h : x ≠ k) : mapInsert f k v x = f x := by
  unfold mapInsert
  rw [if_neg h]

/-- Every contract live after a dedup step was live before it. -/
theorem dedupStep_store_subset (p : Nat × Nat → Option Nat) (st : DedupState)
    (t : RenterContract) : ∀ c ∈ (dedupStep p st t).2.store, c ∈ st.store := by
  intro c hc
  simp only [dedupStep] at hc
  repeat' split at hc
  all_goals first
    | exact hc
    | exact (List.mem_filter.mp hc).1

/-- Resolving a duplicate of a foreign key `keyt` leaves everything about key
`k` untouched: the `pubkeys` entry, the live contracts carrying `k`, and the
lineage and archive entries at IDs owned by `k`-contracts. -/
theorem resolvedFacts (p : Nat × Nat → Option Nat) (st : DedupState)
    (keyt k : Nat × Nat) (nc oc : RenterContract)
    (hnodup : (st.store.map RenterContract.id).Nodup)
    (hkt : keyt ≠ k) (hnck : contractKey nc = keyt) (hock : contractKey oc = keyt)
    (hncS : nc ∈ st.store) (hocS : oc ∈ st.store) :
    mapInsert p keyt nc.id k = p k ∧
    (∀ c ∈ st.store, contractKey c = k →
      c ∈ st.store.filter (fun c => c.id != oc.id)) ∧
    (∀ c ∈ st.store.filter (fun c => c.id != oc.id), c ∈ st.store) ∧
    (∀ id0 : Nat, (∀ c ∈ st.store, c.id = id0 → contractKey c = k) →
      mapInsert st.renewedFrom nc.id oc.id id0 = st.renewedFrom id0 ∧
      mapInsert st.renewedTo oc.id nc.id id0 = st.renewedTo id0 ∧
      mapInsert st.oldContracts oc.id oc id0 = st.oldContracts id0) := by
  refine ⟨?_, ?_, ?_, ?_⟩
  · exact mapInsert_ne p keyt k nc.id (fun he => hkt he.symm)
  · intro c hc hck
    rw [List.mem_filter]
    refine ⟨hc, bne_iff_ne.mpr ?_⟩
    intro he
    have hco : c = oc := store_id_inj hnodup hc hocS he
    rw [hco, hock] at hck
    exact hkt hck
  · intro c hc
    exact (List.mem_filter.mp hc).1
  · intro id0 hid0
    have hncid : nc.id ≠ id0 := by
      intro he
      have hk2 := hid0 nc hncS he
      rw [hnck] at hk2
      exact hkt hk2
    have hocid : oc.id ≠ id0 := by
      intro he
      have hk2 := hid0 oc hocS he
      rw [hock] at hk2
      exact hkt hk2
    exact ⟨mapInsert_ne _ _ _ _ (fun he => hncid he.symm),
      mapInsert_ne _ _ _ _ (fun he => hocid he.symm),
      mapInsert_ne _ _ _ _ (fun he => hocid he.symm)⟩

/-- A dedup step on a contract of a different key preserves the `pubkeys`
entry of key `k`, the live contracts carrying `k`, and the lineage and
archive entries at IDs owned only by `k`-contracts. -/
theorem dedupStep_otherKey (p : Nat × Nat → Option Nat) (st : DedupState)
    (t : RenterContract) (rest : List RenterContract) (k : Nat × Nat)
    (hdi : DedupInv p st.store (t :: rest)) (hkt : contractKey t ≠ k) :
    (dedupStep p st t).1 k = p k ∧
    (∀ c ∈ st.store, contractKey c = k → c ∈ (dedupStep p st t).2.store) ∧
    (∀ c ∈ (dedupStep p st t).2.store, c ∈ st.store) ∧
    (∀ id0 : Nat, (∀ c ∈ st.store, c.id = id0 → contractKey c = k) →
      (dedupStep p st t).2.renewedFrom id0 = st.renewedFrom id0 ∧
      (dedupStep p st t).2.renewedTo id0 = st.renewedTo id0 ∧
      (dedupStep p st t).2.oldContracts id0 = st.oldContracts id0) := by
  have htS : t ∈ st.store := hdi.todoLive t (List.mem_cons_self t rest)
  cases hpt : p (contractKey t) with
  | none =>
    have heq : dedupStep p st t = (mapInsert p (contractKey t) t.id, st) := by
      simp only [dedupStep, hpt]
    rw [heq]
    exact ⟨mapInsert_ne p (contractKey t) k t.id (fun he => hkt he.symm),
      fun c hc _ => hc, fun c hc => hc, fun id0 _ => ⟨rfl, rfl, rfl⟩⟩
  | some fcid =>
    obtain ⟨rc, hrcS, hrcid, hrckey, _⟩ := hdi.lookupSound _ _ hpt
    subst hrcid
    have hview : storeView st.store rc.id = some rc :=
      storeView_mem _ hdi.idsNodup rc hrcS
    by_cases hle : t.startHeight ≤ rc.startHeight
    · have hocview : storeView st.store t.id = some t :=
        storeView_mem _ hdi.idsNodup t htS
      have heq : dedupStep p st t = (mapInsert p (contractKey t) rc.id,
          { store := st.store.filter (fun c => c.id != t.id),
            renewedFrom := mapInsert st.renewedFrom rc.id t.id,
            renewedTo := mapInsert st.renewedTo t.id rc.id,
            oldContracts := mapInsert st.oldContracts t.id t }) := by
        simp only [dedupStep, hpt, hview, if_pos hle, hocview]
      rw [heq]
      exact resolvedFacts p st (contractKey t) k rc t hdi.idsNodup hkt hrckey
        rfl hrcS htS
    · have heq : dedupStep p st t = (mapInsert p (contractKey t) t.id,
          { store := st.store.filter (fun c => c.id != rc.id),
            renewedFrom := mapInsert st.renewedFrom t.id rc.id,
            renewedTo := mapInsert st.renewedTo rc.id t.id,
            oldContracts := mapInsert st.oldContracts rc.id rc }) := by
        simp only [dedupStep, hpt, hview, if_neg hle]
      rw [heq]
      exact resolvedFacts p st (contractKey t) k t rc hdi.idsNodup hkt rfl
        hrckey htS hrcS

/-- One dedup step preserves the pair invariant for a duplicate pair whose
key is shared by no other live contract. -/
theorem pairInv_step (a b : RenterContract) (p : Nat × Nat → Option Nat)
    (st : DedupState) (t : RenterContract) (rest : List RenterContract)
    (hdi : DedupInv p st.store (t :: rest))
    (hkey : contractKey a = contractKey b) (hne : a.id ≠ b.id)
    (hlt : a.startHeight < b.startHeight)
    (honly : ∀ c ∈ st.store, contractKey c = contractKey a → c = a ∨ c = b)
    (hpi : PairInv a b p st (t :: rest)) :
    PairInv a b (dedupStep p st t).1 (dedupStep p st t).2 rest := by
  have htS : t ∈ st.store := hdi.todoLive t (List.mem_cons_self t rest)
  have hnot_tail : ∀ x : Nat, x ∉ (t :: rest).map RenterContract.id →
      x ∉ rest.map RenterContract.id := by
    intro x hx hm
    apply hx
    rw [List.map_cons]
    exact List.mem_cons_of_mem _ hm
  have hmem_tail : ∀ x : Nat, x ∈ (t :: rest).map RenterContract.id →
      x ≠ t.id → x ∈ rest.map RenterContract.id := by
    intro x hx hne2
    rw [List.map_cons] at hx
    rcases List.mem_cons.mp hx with he | hm
    · exact absurd he hne2
    · exact hm
  have hheadnot : t.id ∉ rest.map RenterContract.id := by
    have h2 := hdi.todoIds
    rw [List.map_cons, List.nodup_cons] at h2
    exact h2.1
  by_cases hkt : contractKey t = contractKey a
  · have htab : t = a ∨ t = b := honly t htS hkt
    rcases hpi with ⟨hp, haS, hbS, hat, hbt⟩ | ⟨hp, haS, hbS, hat, hbt⟩ |
      ⟨hp, haS, hbS, hbt, hat⟩ | ⟨hp, hbS, hnoa, hat, hbt, hocm, hrf, hrt⟩
    · -- phase 0: register the key
      have hpt : p (contractKey t) = none := by rw [hkt]; exact hp
      have heq : dedupStep p st t = (mapInsert p (contractKey t) t.id, st) := by
        simp only [dedupStep, hpt]
      rw [heq]
      rcases htab with hta | htb
      · rw [hta]
        refine Or.inr (Or.inl ⟨mapInsert_self _ _ _, haS, hbS,
          hta ▸ hheadnot, ?_⟩)
        exact hmem_tail b.id hbt (by rw [hta]; exact Ne.symm hne)
      · rw [htb]
        refine Or.inr (Or.inr (Or.inl ⟨?_, haS, hbS, htb ▸ hheadnot, ?_⟩))
        · rw [hkey]
          exact mapInsert_self _ _ _
        · exact hmem_tail a.id hat (by rw [htb]; exact hne)
    · -- phase 1a: a is registered, so t = b and the pair is resolved
      rcases htab with hta | htb
      · refine absurd ?_ hat
        rw [← hta]
        exact List.mem_map_of_mem _ (List.mem_cons_self _ _)
      · rw [htb]
        have hpt : p (contractKey b) = some a.id := by rw [← hkey]; exact hp
        have hviewA : storeView st.store a.id = some a :=
          storeView_mem _ hdi.idsNodup a haS
        have hble : ¬(b.startHeight ≤ a.startHeight) := Nat.not_le.mpr hlt
        have heq : dedupStep p st b = (mapInsert p (contractKey b) b.id,
            { store := st.store.filter (fun c => c.id != a.id),
              renewedFrom := mapInsert st.renewedFrom b.id a.id,
              renewedTo := mapInsert st.renewedTo a.id b.id,
              oldContracts := mapInsert st.oldContracts a.id a }) := by
          simp only [dedupStep, hpt, hviewA, if_neg hble]
        rw [heq]
        refine Or.inr (Or.inr (Or.inr ⟨?_, ?_, ?_, hnot_tail a.id hat,
          htb ▸ hheadnot, ?_, ?_, ?_⟩))
        · rw [hkey]
          exact mapInsert_self _ _ _
        · rw [List.mem_filter]
          exact ⟨hbS, bne_iff_ne.mpr (Ne.symm hne)⟩
        · intro c hc
          exact bne_iff_ne.mp (List.mem_filter.mp hc).2
        · exact mapInsert_self _ _ _
        · exact mapInsert_self _ _ _
        · exact mapInsert_self _ _ _
    · -- phase 1b: b is registered, so t = a and the pair is resolved
      rcases htab with hta | htb
      · rw [hta]
        have hviewB : storeView st.store b.id = some b :=
          storeView_mem _ hdi.idsNodup b hbS
        have hviewA : storeView st.store a.id = some a :=
          storeView_mem _ hdi.idsNodup a haS
        have heq : dedupStep p st a = (mapInsert p (contractKey a) b.id,
            { store := st.store.filter (fun c => c.id != a.id),
              renewedFrom := mapInsert st.renewedFrom b.id a.id,
              renewedTo := mapInsert st.renewedTo a.id b.id,
              oldContracts := mapInsert st.oldContracts a.id a }) := by
          simp only [dedupStep, hp, hviewB, if_pos (Nat.le_of_lt hlt), hviewA]
        rw [heq]
        refine Or.inr (Or.inr (Or.inr ⟨mapInsert_self _ _ _, ?_, ?_,
          hta ▸ hheadnot, hnot_tail b.id hbt, ?_, ?_, ?_⟩))
        · rw [List.mem_filter]
          exact ⟨hbS, bne_iff_ne.mpr (Ne.symm hne)⟩
        · intro c hc
          exact bne_iff_ne.mp (List.mem_filter.mp hc).2
        · exact mapInsert_self _ _ _
        · exact mapInsert_self _ _ _
        · exact mapInsert_self _ _ _
      · refine absurd ?_ hbt
        rw [← htb]
        exact List.mem_map_of_mem _ (List.mem_cons_self _ _)
    · -- phase 2: no contract with the key is unprocessed
      rcases htab with hta | htb
      · exact absurd (by rw [hta]) (hnoa t htS)
      · refine absurd ?_ hbt
        rw [← htb]
        exact List.mem_map_of_mem _ (List.mem_cons_self _ _)
  · -- a foreign key: the pair's phase is preserved
    obtain ⟨hs1, hs2, hs3, hs4⟩ := dedupStep_otherKey p st t rest
      (contractKey a) hdi hkt
    have htne : ∀ x : RenterContract, x ∈ st.store →
        contractKey x = contractKey a → t.id ≠ x.id := by
      intro x hxS hxk he
      apply hkt
      rw [store_id_inj hdi.idsNodup htS hxS he, hxk]
    rcases hpi with ⟨hp, haS, hbS, hat, hbt⟩ | ⟨hp, haS, hbS, hat, hbt⟩ |
      ⟨hp, haS, hbS, hbt, hat⟩ | ⟨hp, hbS, hnoa, hat, hbt, hocm, hrf, hrt⟩
    · refine Or.inl ⟨?_, hs2 a haS rfl, hs2 b hbS hkey.symm, ?_, ?_⟩
      · rw [hs1]
        exact hp
      · exact hmem_tail a.id hat (fun he => htne a haS rfl he.symm)
      · exact hmem_tail b.id hbt (fun he => htne b hbS hkey.symm he.symm)
    · refine Or.inr (Or.inl ⟨?_, hs2 a haS rfl, hs2 b hbS hkey.symm,
        hnot_tail a.id hat, ?_⟩)
      · rw [hs1]
        exact hp
      · exact hmem_tail b.id hbt (fun he => htne b hbS hkey.symm he.symm)
    · refine Or.inr (Or.inr (Or.inl ⟨?_, hs2 a haS rfl, hs2 b hbS hkey.symm,
        hnot_tail b.id hbt, ?_⟩))
      · rw [hs1]
        exact hp
      · exact hmem_tail a.id hat (fun he => htne a haS rfl he.symm)
    · have hmapsA := hs4 a.id (fun c hc he => absurd he (hnoa c hc))
      have hmapsB := hs4 b.id (fun c hc he => by
        rw [store_id_inj hdi.idsNodup hc hbS he, ← hkey])
      refine Or.inr (Or.inr (Or.inr ⟨?_, hs2 b hbS hkey.symm, ?_,
        hnot_tail a.id hat, hnot_tail b.id hbt, ?_, ?_, ?_⟩))
      · rw [hs1]
        exact hp
      · intro c hc
        exact hnoa c (hs3 c hc)
      · rw [hmapsA.2.2]
        exact hocm
      · rw [hmapsB.1]
        exact hrf
      · rw [hmapsA.2.1]
        exact hrt

/-- Folding the dedup step over the whole snapshot preserves the pair
invariant for a duplicate pair whose key no other live contract shares. -/
theorem pairFold_inv (a b : RenterContract)
    (hkey : contractKey a = contractKey b) (hne : a.id ≠ b.id)
    (hlt : a.startHeight < b.startHeight) (todo : List RenterContract) :
    ∀ (p : Nat × Nat → Option Nat) (st : DedupState),
      DedupInv p st.store todo →
      (∀ c ∈ st.store, contractKey c = contractKey a → c = a ∨ c = b) →
      PairInv a b p st todo →
      PairInv a b
        ((todo.foldl (fun acc c => dedupStep acc.1 acc.2 c) (p, st)).1)
        ((todo.foldl (fun acc c => dedupStep acc.1 acc.2 c) (p, st)).2) [] := by
  induction todo with
  | nil =>
    intro p st _ _ hpi
    simpa using hpi
  | cons t rest ih =>
    intro p st hdi honly hpi
    rw [List.foldl_cons]
    refine ih _ _ (dedupStep_inv p st t rest hdi) ?_
      (pairInv_step a b p st t rest hdi hkey hne hlt honly hpi)
    intro c hc hck
    exact honly c (dedupStep_store_subset p st t c hc) hck

/-- Claim C1 fails on the code with three contracts sharing one key: the pair
`(c1A, c1B)` is found and resolved in favour of `c1B` (the lineage records
`renewedTo[c1A] = c1B`), `c1B` has the greater start height of that pair, yet
after the pass `c1B` is not live (it lost in turn to `c1C`), so the claimed
survivor of a found duplicate pair does not remain live. -/
theorem dedup_counterexample :
    contractKey c1A = contractKey c1B ∧ contractKey c1B = contractKey c1C ∧
    c1A.id ≠ c1B.id ∧ c1A.startHeight < c1B.startHeight ∧
    (managedCheckForDuplicates c1St3).renewedTo c1A.id = some c1B.id ∧
    c1B ∉ (managedCheckForDuplicates c1St3).store := by
  decide

/-- Claim C1 (amended): after `managedCheckForDuplicates`, no two live
contracts share a `(renter public key, host public key)` pair; and whenever a
duplicate pair was found whose key no third live contract shares, the
contract with the greater start height remains live, the loser is archived
in `oldContracts` under its ID with its metadata, and the lineage maps
record `renewedFrom[survivor] = loser` and `renewedTo[loser] = survivor`.
(With three or more contracts on one key the bookkeeping can be imperfect,
as the source comments.) -/
theorem dedup_unique_and_resolution (st : DedupState)
    (hnodup : (st.store.map RenterContract.id).Nodup) :
    (∀ a ∈ (managedCheckForDuplicates st).store,
      ∀ b ∈ (managedCheckForDuplicates st).store,
        contractKey a = contractKey b → a = b) ∧
    (∀ a b : RenterContract, a ∈ st.store → b ∈ st.store →
      contractKey a = contractKey b → a.id ≠ b.id →
      a.startHeight < b.startHeight →
      (∀ c ∈ st.store, contractKey c = contractKey a → c = a ∨ c = b) →
      b ∈ (managedCheckForDuplicates st).store ∧
      (∀ c ∈ (managedCheckForDuplicates st).store, c.id ≠ a.id) ∧
      (managedCheckForDuplicates st).oldContracts a.id = some a ∧
      (managedCheckForDuplicates st).renewedFrom b.id = some a.id ∧
      (managedCheckForDuplicates st).renewedTo a.id = some b.id) := by
  constructor
  · have hinv := dedupFold_inv st.store (fun _ => none) st (dedupInv_init st hnodup)
    intro a ha b hb hkey
    simp only [managedCheckForDuplicates] at ha hb
    have hpa := hinv.processedReg a ha (by simp)
    have hpb := hinv.processedReg b hb (by simp)
    rw [hkey] at hpa
    rw [hpa] at hpb
    injection hpb with hpb
    exact store_id_inj hinv.idsNodup ha hb hpb
  · intro a b haS hbS hkey hne hlt honly
    have hinit : PairInv a b (fun _ => none) st st.store :=
      Or.inl ⟨rfl, haS, hbS, List.mem_map_of_mem _ haS,
        List.mem_map_of_mem _ hbS⟩
    have hfin := pairFold_inv a b hkey hne hlt st.store (fun _ => none) st
      (dedupInv_init st hnodup) honly hinit
    rcases hfin with ⟨_, _, _, hat, _⟩ | ⟨_, _, _, _, hbt⟩ |
      ⟨_, _, _, _, hat⟩ | ⟨_, hbS2, hnoa, _, _, hocm, hrf, hrt⟩
    · simp at hat
    · simp at hbt
    · simp at hat
    · exact ⟨hbS2, hnoa, hocm, hrf, hrt⟩

/-- The demotion accumulator only grows. -/
theorem gfuFold_grow (L : List (RenterContract × Nat)) :
    ∀ (m : Nat → Option Nat) (d : List Nat) (x : Nat),
      x ∈ d → x ∈ (gfuDemoteFold L m d).2 := by
  induction L with
  | nil =>
    intro m d x hx
    simpa [gfuDemoteFold] using hx
  | cons hd rest ih =>
    intro m d x hx
    by_cases hb : 0 < (m hd.1.renterPublicKey).getD 0
    · simp only [gfuDemoteFold, if_pos hb]
      exact ih _ _ _ hx
    · simp only [gfuDemoteFold, if_neg hb]
      exact ih _ _ _ (List.mem_append_left _ hx)

/-- Everything in the demotion accumulator came from it or from the list. -/
theorem gfuFold_sources (L : List (RenterContract × Nat)) :
    ∀ (m : Nat → Option Nat) (d : List Nat) (x : Nat),
      x ∈ (gfuDemoteFold L m d).2 →
      x ∈ d ∨ ∃ cs, cs ∈ L ∧ cs.1.id = x := by
  induction L with
  | nil =>
    intro m d x hx
    exact Or.inl (by simpa [gfuDemoteFold] using hx)
  | cons hd rest ih =>
    intro m d x hx
    by_cases hb : 0 < (m hd.1.renterPublicKey).getD 0
    · simp only [gfuDemoteFold, if_pos hb] at hx
      rcases ih _ _ _ hx with h | ⟨cs, hcs, hid⟩
      · exact Or.inl h
      · exact Or.inr ⟨cs, List.mem_cons_of_mem _ hcs, hid⟩
    · simp only [gfuDemoteFold, if_neg hb] at hx
      rcases ih _ _ _ hx with h | ⟨cs, hcs, hid⟩
      · rcases List.mem_append.mp h with h2 | h2
        · exact Or.inl h2
        · exact Or.inr ⟨hd, List.mem_cons_self _ _, (List.mem_singleton.mp h2).symm⟩
      · exact Or.inr ⟨cs, List.mem_cons_of_mem _ hcs, hid⟩

/-- Once a renter's budget is exhausted, all its remaining contracts are
demoted. -/
theorem gfuFold_zero (L : List (RenterContract × Nat)) :
    ∀ (m : Nat → Option Nat) (d : List Nat) (key : Nat),
      (m key).getD 0 = 0 →
      ∀ cs ∈ L, cs.1.renterPublicKey = key →
        cs.1.id ∈ (gfuDemoteFold L m d).2 := by
  induction L with
  | nil =>
    intro m d key _ cs hcs
    exact absurd hcs (List.not_mem_nil cs)
  | cons hd rest ih =>
    intro m d key hzero cs hcs hkey
    by_cases hb : 0 < (m hd.1.renterPublicKey).getD 0
    · have hne : hd.1.renterPublicKey ≠ key := by
        intro he
        rw [he, hzero] at hb
        exact absurd hb (by omega)
      simp only [gfuDemoteFold, if_pos hb]
      rcases List.mem_cons.mp hcs with rfl | hcs2
      · exact absurd hkey hne
      · refine ih _ _ key ?_ cs hcs2 hkey
        unfold mapInsert
        rw [if_neg (fun he => hne he.symm)]
        exact hzero
    · simp only [gfuDemoteFold, if_neg hb]
      rcases List.mem_cons.mp hcs with rfl | hcs2
      · exact gfuFold_grow _ _ _ _ (by simp)
      · exact ih _ _ key hzero cs hcs2 hkey

/-- A contract kept by the demotion loop scores no higher than any demoted
contract of the same renter. -/
theorem gfuFold_order (L : List (RenterContract × Nat)) :
    ∀ (m : Nat → Option Nat) (d : List Nat),
      L.Pairwise scoreLE → (L.map (fun cs => cs.1.id)).Nodup →
      ∀ pa, pa ∈ L → ∀ pb, pb ∈ L →
        pa.1.renterPublicKey = pb.1.renterPublicKey →
        pa.1.id ∉ (gfuDemoteFold L m d).2 →
        pb.1.id ∈ (gfuDemoteFold L m d).2 →
        pb.1.id ∉ d → pa.2 ≤ pb.2 := by
  induction L with
  | nil =>
    intro m d _ _ pa hpa
    exact absurd hpa (List.not_mem_nil pa)
  | cons hd rest ih =>
    intro m d hpw hnd pa hpa pb hpb hkey hka hkb hbd
    rw [List.pairwise_cons] at hpw
    rw [List.map_cons, List.nodup_cons] at hnd
    by_cases hb : 0 < (m hd.1.renterPublicKey).getD 0
    · simp only [gfuDemoteFold, if_pos hb] at hka hkb
      rcases List.mem_cons.mp hpa with rfl | hpa2
      · rcases List.mem_cons.mp hpb with rfl | hpb2
        · exact absurd hkb hka
        · exact hpw.1 pb hpb2
      · rcases List.mem_cons.mp hpb with rfl | hpb2
        · rcases gfuFold_sources _ _ _ _ hkb with hin | ⟨cs, hcs, hcsid⟩
          · exact absurd hin hbd
          · refine absurd ?_ hnd.1
            rw [← hcsid]
            exact List.mem_map_of_mem (fun cs => cs.1.id) hcs
        · exact ih _ _ hpw.2 hnd.2 pa hpa2 pb hpb2 hkey hka hkb hbd
    · simp only [gfuDemoteFold, if_neg hb] at hka hkb
      rcases List.mem_cons.mp hpa with rfl | hpa2
      · exact absurd (gfuFold_grow _ _ _ _ (by simp)) hka
      · rcases List.mem_cons.mp hpb with rfl | hpb2
        · have hzero : (m pb.1.renterPublicKey).getD 0 = 0 := by omega
          refine absurd (gfuFold_zero _ _ _ pb.1.renterPublicKey ?_ pa hpa2 hkey) hka
          exact hzero
        · refine ih _ _ hpw.2 hnd.2 pa hpa2 pb hpb2 hkey hka hkb ?_
          simp only [List.mem_append, List.mem_singleton]
          rintro (h | h)
          · exact hbd h
          · refine hnd.1 ?_
            rw [← h]
            exact List.mem_map_of_mem (fun cs => cs.1.id) hpb2

/-- Per renter, the number of contracts the demotion loop keeps is bounded by
that renter's remaining budget. -/
theorem gfuFold_cap (L : List (RenterContract × Nat)) :
    ∀ (m : Nat → Option Nat) (d : List Nat) (key : Nat),
      (L.map (fun cs => cs.1.id)).Nodup →
      (∀ cs ∈ L, cs.1.id ∉ d) →
      (L.filter (fun cs => decide (cs.1.renterPublicKey = key ∧
        cs.1.id ∉ (gfuDemoteFold L m d).2))).length ≤ (m key).getD 0 := by
  induction L with
  | nil =>
    intro m d key _ _
    simp
  | cons hd rest ih =>
    intro m d key hnd hdisj
    rw [List.map_cons, List.nodup_cons] at hnd
    by_cases hb : 0 < (m hd.1.renterPublicKey).getD 0
    · simp only [gfuDemoteFold, if_pos hb]
      rw [List.filter_cons]
      by_cases hk : hd.1.renterPublicKey = key
      · subst hk
        have hnotin : hd.1.id ∉ (gfuDemoteFold rest
            (mapInsert m hd.1.renterPublicKey ((m hd.1.renterPublicKey).getD 0 - 1))
            d).2 := by
          intro hin
          rcases gfuFold_sources _ _ _ _ hin with hind | ⟨cs, hcs, hcsid⟩
          · exact hdisj hd (List.mem_cons_self _ _) hind
          · refine hnd.1 ?_
            rw [← hcsid]
            exact List.mem_map_of_mem (fun cs => cs.1.id) hcs
        rw [if_pos (by rw [decide_eq_true_eq]; exact ⟨rfl, hnotin⟩)]
        have hih := ih (mapInsert m hd.1.renterPublicKey
            ((m hd.1.renterPublicKey).getD 0 - 1)) d hd.1.renterPublicKey hnd.2
          (fun cs hcs => hdisj cs (List.mem_cons_of_mem _ hcs))
        have hmk : ((mapInsert m hd.1.renterPublicKey
            ((m hd.1.renterPublicKey).getD 0 - 1)) hd.1.renterPublicKey).getD 0 =
            (m hd.1.renterPublicKey).getD 0 - 1 := by
          unfold mapInsert
          rw [if_pos rfl]
          rfl
        rw [hmk] at hih
        simp only [List.length_cons]
        omega
      · rw [if_neg (by simp [hk])]
        have hih := ih (mapInsert m hd.1.renterPublicKey
            ((m hd.1.renterPublicKey).getD 0 - 1)) d key hnd.2
          (fun cs hcs => hdisj cs (List.mem_cons_of_mem _ hcs))
        have hmk : ((mapInsert m hd.1.renterPublicKey
            ((m hd.1.renterPublicKey).getD 0 - 1)) key).getD 0 = (m key).getD 0 := by
          unfold mapInsert
          rw [if_neg (fun he => hk he.symm)]
        rw [hmk] at hih
        exact hih
    · simp only [gfuDemoteFold, if_neg hb]
      rw [List.filter_cons]
      have hdem : hd.1.id ∈ (gfuDemoteFold rest m (d ++ [hd.1.id])).2 :=
        gfuFold_grow _ _ _ _ (by simp)
      rw [if_neg (by simp [hdem])]
      refine ih m (d ++ [hd.1.id]) key hnd.2 ?_
      intro cs hcs
      simp only [List.mem_append, List.mem_singleton]
      rintro (h | h)
      · exact hdisj cs (List.mem_cons_of_mem _ hcs) h
      · refine hnd.1 ?_
        rw [← h]
        exact List.mem_map_of_mem (fun cs => cs.1.id) hcs

/-- Folding budget insertions does not touch keys outside the renter list. -/
theorem budgetFold_not_mem (rs : List Renter) :
    ∀ (m : Nat → Option Nat) (k : Nat), k ∉ rs.map Renter.publicKey →
      (rs.foldl (fun m r => mapInsert m r.publicKey r.allowance.hosts) m) k = m k := by
  induction rs with
  | nil =>
    intro m k _
    rfl
  | cons hd rest ih =>
    intro m k hk
    have hk2 : k ≠ hd.publicKey ∧ k ∉ rest.map Renter.publicKey := by
      rw [List.map_cons] at hk
      simpa [not_or] using hk
    rw [List.foldl_cons, ih _ _ hk2.2]
    unfold mapInsert
    rw [if_neg hk2.1]

/-- With distinct renter keys, the budget fold records each renter's
`allowance.hosts`. -/
theorem budgetFold_lookup (rs : List Renter) :
    ∀ (m : Nat → Option Nat) (r : Renter), (rs.map Renter.publicKey).Nodup →
      r ∈ rs →
      (rs.foldl (fun m r => mapInsert m r.publicKey r.allowance.hosts) m)
        r.publicKey = some r.allowance.hosts := by
  induction rs with
  | nil =>
    intro m r _ hr
    exact absurd hr (List.not_mem_nil r)
  | cons hd rest ih =>
    intro m r hnd hr
    rw [List.map_cons, List.nodup_cons] at hnd
    rw [List.foldl_cons]
    rcases List.mem_cons.mp hr with rfl | hr2
    · rw [budgetFold_not_mem rest _ _ hnd.1]
      unfold mapInsert
      rw [if_pos rfl]
    · exact ih _ r hnd.2 hr2

/-- With the renter known and keys distinct, `numHosts` starts at
`allowance.hosts`. -/
theorem initialBudget_lookup (rs : List Renter) (r : Renter)
    (hnd : (rs.map Renter.publicKey).Nodup) (hr : r ∈ rs) :
    initialBudget rs r.publicKey = some r.allowance.hosts :=
  budgetFold_lookup rs (fun _ => none) r hnd hr

/-- With every GFU host scored, the GFU candidates are exactly the GFU
contracts. -/
theorem gfuCandidates_fst (score : Nat → Option Nat) (store : List RenterContract)
    (hscores : ∀ c ∈ store, c.utility.goodForUpload = true →
      (score c.hostPublicKey).isSome = true) :
    (gfuCandidates score store).map Prod.fst =
      store.filter (fun c => c.utility.goodForUpload) := by
  induction store with
  | nil => rfl
  | cons hd rest ih =>
    have hrest : ∀ c ∈ rest, c.utility.goodForUpload = true →
        (score c.hostPublicKey).isSome = true :=
      fun c hc => hscores c (List.mem_cons_of_mem _ hc)
    unfold gfuCandidates at ih ⊢
    rw [List.filterMap_cons, List.filter_cons]
    by_cases hgfu : hd.utility.goodForUpload = true
    · have hsc := hscores hd (List.mem_cons_self _ _) hgfu
      cases hs : score hd.hostPublicKey with
      | none =>
        rw [hs] at hsc
        exact absurd hsc (by simp)
      | some s =>
        simp only [hgfu, if_pos, hs, List.map_cons, ih hrest, if_true]
    · have hgfu2 : hd.utility.goodForUpload = false := by
        revert hgfu
        cases hd.utility.goodForUpload <;> simp
      simp only [hgfu2, Bool.false_eq_true, if_false, ih hrest]

/-- Claim C6 fails on the code: with a one-host allowance, the contract with
the lower-scoring host (`c6A`, score 1) stays GoodForUpload and the
higher-scoring `c6B` (score 10) is demoted, because the loop walks the
ascending sort from the bottom. -/
theorem limitGFU_counterexample :
    c6A.utility.goodForUpload = true ∧ c6B.utility.goodForUpload = true ∧
    c6Score c6A.hostPublicKey = some 1 ∧ c6Score c6B.hostPublicKey = some 10 ∧
    c6Renter.allowance.hosts = 1 ∧
    managedLimitGFUHosts c6Score [c6Renter] [c6A, c6B] =
      [c6A, { c6B with utility :=
        { goodForUpload := false, goodForRenew := true, locked := false } }] := by
  decide

/-- The length of a filtered image equals the length of the preimage filtered
through the map. -/
theorem length_filter_map_eq {α β : Type} (f : α → β) (l : List α) (p : β → Bool) :
    ((l.map f).filter p).length = (l.filter (fun a => p (f a))).length := by
  rw [List.filter_map, List.length_map]
  rfl

/-- Claim C6 (amended): `managedLimitGFUHosts` demotes the surplus by sorting
each renter's scored GFU contracts ascending by host score and marking the
highest-scoring surplus not-GoodForUpload, so per renter at most
`allowance.Hosts` contracts remain GFU and the retained ones are the
lowest-scoring. -/
theorem limitGFU_cap_and_lowest (score : Nat → Option Nat)
    (renters : List Renter) (store : List RenterContract) (r : Renter)
    (hrnd : (renters.map Renter.publicKey).Nodup) (hr : r ∈ renters)
    (hnd : (store.map RenterContract.id).Nodup)
    (hscores : ∀ c ∈ store, c.utility.goodForUpload = true →
      (score c.hostPublicKey).isSome = true) :
    ((managedLimitGFUHosts score renters store).filter
        (fun c => c.utility.goodForUpload &&
          (c.renterPublicKey == r.publicKey))).length ≤ r.allowance.hosts ∧
    (∀ a b : RenterContract, a ∈ store → b ∈ store →
      a.utility.goodForUpload = true → b.utility.goodForUpload = true →
      a.renterPublicKey = b.renterPublicKey →
      a ∈ managedLimitGFUHosts score renters store →
      b ∉ managedLimitGFUHosts score renters store →
      ∀ sa sb : Nat, score a.hostPublicKey = some sa →
        score b.hostPublicKey = some sb → sa ≤ sb) := by
  have hLnd : (((gfuCandidates score store).insertionSort scoreLE).map
      (fun cs => cs.1.id)).Nodup := by
    have hperm : List.Perm
        (((gfuCandidates score store).insertionSort scoreLE).map
          (fun cs => cs.1.id))
        ((gfuCandidates score store).map (fun cs => cs.1.id)) :=
      (List.perm_insertionSort scoreLE (gfuCandidates score store)).map _
    rw [hperm.nodup_iff]
    have hcomp : (gfuCandidates score store).map (fun cs => cs.1.id) =
        ((gfuCandidates score store).map Prod.fst).map RenterContract.id := by
      rw [List.map_map]
      rfl
    rw [hcomp, gfuCandidates_fst score store hscores]
    exact hnd.sublist ((List.filter_sublist store).map RenterContract.id)
  constructor
  · -- the cap
    have hcap := gfuFold_cap ((gfuCandidates score store).insertionSort scoreLE)
      (initialBudget renters) [] r.publicKey hLnd (by simp)
    rw [initialBudget_lookup renters r hrnd hr, Option.getD_some] at hcap
    refine le_trans (le_of_eq ?_) hcap
    simp only [managedLimitGFUHosts]
    rw [length_filter_map_eq]
    have he2 : store.filter (fun c =>
        (fun c => c.utility.goodForUpload && (c.renterPublicKey == r.publicKey))
          ((fun c => if c.id ∈ (gfuDemoteFold
              ((gfuCandidates score store).insertionSort scoreLE)
              (initialBudget renters) []).2 then
            { c with utility := { c.utility with goodForUpload := false } }
          else c) c)) =
        store.filter (fun c => decide (c.renterPublicKey = r.publicKey ∧
          c.id ∉ (gfuDemoteFold
            ((gfuCandidates score store).insertionSort scoreLE)
            (initialBudget renters) []).2) && c.utility.goodForUpload) := by
      apply List.filter_congr
      intro c _
      by_cases hdc : c.id ∈ (gfuDemoteFold
          ((gfuCandidates score store).insertionSort scoreLE)
          (initialBudget renters) []).2
      · simp [hdc]
      · by_cases hrc : c.renterPublicKey = r.publicKey <;>
          simp [hdc, hrc, Bool.and_comm]
    rw [he2, ← List.filter_filter, ← gfuCandidates_fst score store hscores,
      length_filter_map_eq]
    exact (((List.perm_insertionSort scoreLE
      (gfuCandidates score store)).filter _).length_eq).symm
  · -- the retained are the lowest-scoring
    intro a b ha hb hagfu hbgfu hkey hain hbout sa sb hsa hsb
    have haD : a.id ∉ (gfuDemoteFold
        ((gfuCandidates score store).insertionSort scoreLE)
        (initialBudget renters) []).2 := by
      intro hain2
      simp only [managedLimitGFUHosts] at hain
      obtain ⟨c, hcS, hfc⟩ := List.mem_map.mp hain
      have hcid : c.id = a.id := by
        by_cases hcd : c.id ∈ (gfuDemoteFold
            ((gfuCandidates score store).insertionSort scoreLE)
            (initialBudget renters) []).2
        · rw [if_pos hcd] at hfc
          rw [← hfc]
        · rw [if_neg hcd] at hfc
          rw [← hfc]
      have hca : c = a := store_id_inj hnd hcS ha hcid
      subst hca
      rw [if_pos hain2] at hfc
      have := congrArg (fun c => c.utility.goodForUpload) hfc
      simp only at this
      rw [hagfu] at this
      exact Bool.false_ne_true this
    have hbD : b.id ∈ (gfuDemoteFold
        ((gfuCandidates score store).insertionSort scoreLE)
        (initialBudget renters) []).2 := by
      by_contra hbD
      apply hbout
      simp only [managedLimitGFUHosts]
      have : (if b.id ∈ (gfuDemoteFold
          ((gfuCandidates score store).insertionSort scoreLE)
          (initialBudget renters) []).2 then
            { b with utility := { b.utility with goodForUpload := false } }
          else b) = b := by
        rw [if_neg hbD]
      rw [← this]
      exact List.mem_map_of_mem _ hb
    have hamem : (a, sa) ∈ (gfuCandidates score store).insertionSort scoreLE := by
      rw [List.mem_insertionSort]
      unfold gfuCandidates
      rw [List.mem_filterMap]
      exact ⟨a, ha, by rw [if_pos hagfu, hsa]⟩
    have hbmem : (b, sb) ∈ (gfuCandidates score store).insertionSort scoreLE := by
      rw [List.mem_insertionSort]
      unfold gfuCandidates
      rw [List.mem_filterMap]
      exact ⟨b, hb, by rw [if_pos hbgfu, hsb]⟩
    have hsorted : ((gfuCandidates score store).insertionSort scoreLE).Pairwise
        scoreLE :=
      List.sorted_insertionSort scoreLE (gfuCandidates score store)
    exact gfuFold_order _ (initialBudget renters) [] hsorted hLnd (a, sa) hamem
      (b, sb) hbmem hkey haD hbD (by simp)

/-- Witness for `limitGFU_cap_and_lowest` at the concrete two-contract,
one-host input: at most one contract of renter 5 stays GFU. -/
theorem limitGFU_cap_and_lowest_witness :
    ((managedLimitGFUHosts c6Score [c6Renter] [c6A, c6B]).filter
        (fun c => c.utility.goodForUpload &&
          (c.renterPublicKey == c6Renter.publicKey))).length ≤
      c6Renter.allowance.hosts :=
  (limitGFU_cap_and_lowest c6Score [c6Renter] [c6A, c6B] c6Renter
    (by decide) (by decide) (by decide) (by decide)).1

/-- The classifier never removes entries from the refresh set. -/
theorem classifyStep_refresh_mono (p : RenewParams) (store : List RenterContract)
    (st : ClassifyState) (fcid : Nat) (x : FileContractRenewal)
    (hx : x ∈ st.refreshSet) : x ∈ (classifyStep p store st fcid).refreshSet := by
  simp only [classifyStep]
  repeat' split
  all_goals first
    | exact hx
    | exact List.mem_append_left _ hx

/-- Folding the classifier never removes entries from the refresh set. -/
theorem classifyFold_refresh_mono (p : RenewParams) (store : List RenterContract)
    (ids : List Nat) :
    ∀ (st : ClassifyState) (x : FileContractRenewal), x ∈ st.refreshSet →
      x ∈ (ids.foldl (classifyStep p store) st).refreshSet := by
  induction ids with
  | nil =>
    intro st x hx
    exact hx
  | cons hd rest ih =>
    intro st x hx
    rw [List.foldl_cons]
    exact ih _ x (classifyStep_refresh_mono p store st hd x hx)

/-- A non-GFU, GFR contract outside its renew window with low funds and a
well-behaved host is appended to the refresh set by the classifier. -/
theorem classifyStep_refresh_adds (p : RenewParams) (store : List RenterContract)
    (st : ClassifyState) (rc : RenterContract) (host : HostDBEntry) (fcid : Nat)
    (hview : storeView store fcid = some rc)
    (hrent : rc.renterPublicKey = p.renter.publicKey)
    (hgfu : rc.utility.goodForUpload = false)
    (hgfr : rc.utility.goodForRenew = true)
    (hwin : p.blockHeight + p.renter.allowance.renewWindow < rc.endHeight)
    (hhost : p.hostLookup rc.hostPublicKey = some host)
    (hfil : host.filtered = false)
    (hver : ¬host.version < p.minVersion)
    (hlow : rc.renterFunds <
        (host.settings.storagePrice * (p.sectorSize * p.renter.allowance.period) +
          (host.settings.uploadBandwidthPrice * p.sectorSize +
            host.settings.downloadBandwidthPrice * p.sectorSize)) * 3 ∨
      ((rc.renterFunds : Rat) / (rc.totalCost : Rat)) < p.minThreshold) :
    ({ id := rc.id,
       amount := if rc.totalCost * 2 <
           minimumFunding p.renter.allowance p.fcmfNum p.fcmfDen then
           minimumFunding p.renter.allowance p.fcmfNum p.fcmfDen
         else rc.totalCost * 2,
       renterPubKey := p.renter.publicKey,
       hostPubKey := rc.hostPublicKey } : FileContractRenewal) ∈
      (classifyStep p store st fcid).refreshSet := by
  have hwin2 : ¬(p.blockHeight + p.renter.allowance.renewWindow ≥ rc.endHeight) :=
    Nat.not_le.mpr hwin
  simp only [classifyStep, hview, hhost, hrent, hgfu, hgfr, hfil, hver, hwin2,
    ne_eq, not_true_eq_false, Bool.false_eq_true, and_false, if_false,
    ite_false, if_pos hlow, ite_true, if_true, not_false_eq_true]
  simp [hlow]

/-- Claim C7 fails on the code: the contract `c7Old` is GoodForRenew, outside
its renew window, and has exhausted its funds (ratio 0 < 3%), yet because it
is also GoodForUpload the classifier keeps it and the refresh set stays
empty. -/
theorem refresh_classification_counterexample :
    c7Old.utility.goodForRenew = true ∧
    c7Params.blockHeight + c7Params.renter.allowance.renewWindow <
      c7Old.endHeight ∧
    c7Old.renterFunds <
      (c7Host.settings.storagePrice *
          (c7Params.sectorSize * c7Params.renter.allowance.period) +
        (c7Host.settings.uploadBandwidthPrice * c7Params.sectorSize +
          c7Host.settings.downloadBandwidthPrice * c7Params.sectorSize)) * 3 ∧
    (RenewContracts c7Params [c7Old] [1]).refreshSet = [] ∧
    (RenewContracts c7Params [c7Old] [1]).contractSet = [c7Old] := by
  refine ⟨rfl, by decide, by decide, rfl, rfl⟩

/-- Claim C7 (amended): every contract that is GoodForRenew but not
GoodForUpload, whose host is known, unfiltered and of a supported version,
that is not yet inside its renew window and whose funds are low
(`renterFunds < 3 × sectorPrice` or funds/totalCost below
`minContractFundRenewalThreshold`) is placed in the refresh set with amount
`max(2 × totalCost, allowance.Funds × fileContractMinimumFunding ÷
allowance.Hosts)`; the refresh set is processed only after the renew set. -/
theorem refresh_classification (p : RenewParams) (store : List RenterContract)
    (ids : List Nat) (fcid : Nat) (rc : RenterContract) (host : HostDBEntry)
    (hmem : fcid ∈ ids)
    (hview : storeView store fcid = some rc)
    (hrent : rc.renterPublicKey = p.renter.publicKey)
    (hgfu : rc.utility.goodForUpload = false)
    (hgfr : rc.utility.goodForRenew = true)
    (hwin : p.blockHeight + p.renter.allowance.renewWindow < rc.endHeight)
    (hhost : p.hostLookup rc.hostPublicKey = some host)
    (hfil : host.filtered = false)
    (hver : ¬host.version < p.minVersion)
    (hlow : rc.renterFunds <
        (host.settings.storagePrice * (p.sectorSize * p.renter.allowance.period) +
          (host.settings.uploadBandwidthPrice * p.sectorSize +
            host.settings.downloadBandwidthPrice * p.sectorSize)) * 3 ∨
      ((rc.renterFunds : Rat) / (rc.totalCost : Rat)) < p.minThreshold) :
    ({ id := rc.id,
       amount := if rc.totalCost * 2 <
           minimumFunding p.renter.allowance p.fcmfNum p.fcmfDen then
           minimumFunding p.renter.allowance p.fcmfNum p.fcmfDen
         else rc.totalCost * 2,
       renterPubKey := p.renter.publicKey,
       hostPubKey := rc.hostPublicKey } : FileContractRenewal) ∈
      (RenewContracts p store ids).refreshSet ∧
    renewalAttemptOrder (RenewContracts p store ids) =
      (RenewContracts p store ids).renewSet ++
        (RenewContracts p store ids).refreshSet := by
  constructor
  · obtain ⟨l1, l2, rfl⟩ := List.append_of_mem hmem
    unfold RenewContracts
    rw [List.foldl_append, List.foldl_cons]
    exact classifyFold_refresh_mono p store l2 _ _
      (classifyStep_refresh_adds p store _ rc host fcid hview hrent hgfu hgfr
        hwin hhost hfil hver hlow)
  · rfl

/-- Witness for `refresh_classification`: the exhausted non-GFU contract
`c7OldNoGFU` is routed to the refresh set with amount
`max(2 × 100, 15) = 200`. -/
theorem refresh_classification_witness :
    ({ id := c7OldNoGFU.id,
       amount := if c7OldNoGFU.totalCost * 2 <
           minimumFunding c7Params.renter.allowance c7Params.fcmfNum
             c7Params.fcmfDen then
           minimumFunding c7Params.renter.allowance c7Params.fcmfNum
             c7Params.fcmfDen
         else c7OldNoGFU.totalCost * 2,
       renterPubKey := c7Params.renter.publicKey,
       hostPubKey := c7OldNoGFU.hostPublicKey } : FileContractRenewal) ∈
      (RenewContracts c7Params [c7OldNoGFU] [1]).refreshSet ∧
    renewalAttemptOrder (RenewContracts c7Params [c7OldNoGFU] [1]) =
      (RenewContracts c7Params [c7OldNoGFU] [1]).renewSet ++
        (RenewContracts c7Params [c7OldNoGFU] [1]).refreshSet :=
  refresh_classification c7Params [c7OldNoGFU] [1] 1 c7OldNoGFU c7Host
    (by decide) rfl rfl rfl rfl (by decide) rfl rfl (by decide)
    (Or.inl (by decide))

/-- Folding entry copying over a list of IDs keeps exactly the listed IDs
that the old map holds. -/
theorem resetFold_lookup (old : Nat → Option Nat) (ids : List Nat) :
    ∀ (m : Nat → Option Nat) (i : Nat),
      (ids.foldl (fun (m : Nat → Option Nat) (j : Nat) =>
        match old j with
        | none => m
        | some v => mapInsert m j v) m) i =
      if i ∈ ids ∧ (old i).isSome = true then old i else m i := by
  induction ids with
  | nil =>
    intro m i
    simp
  | cons hd rest ih =>
    intro m i
    rw [List.foldl_cons, ih]
    by_cases hir : i ∈ rest ∧ (old i).isSome = true
    · rw [if_pos hir, if_pos ⟨List.mem_cons_of_mem _ hir.1, hir.2⟩]
    · rw [if_neg hir]
      by_cases hih : i = hd
      · subst hih
        cases ho : old i with
        | none =>
          rw [if_neg (by simp)]
        | some v =>
          rw [if_pos ⟨List.mem_cons_self _ _, rfl⟩]
          simp [mapInsert]
      · have hcond : ¬(i ∈ hd :: rest ∧ (old i).isSome = true) := by
          intro hc
          rcases List.mem_cons.mp hc.1 with he | hm
          · exact hih he
          · exact hir ⟨hm, hc.2⟩
        rw [if_neg hcond]
        cases ho : old hd with
        | none => rfl
        | some v =>
          simp only [mapInsert, if_neg hih]

/-- Claim C8: after a `RenewContracts` pass, `numFailedRenews` holds exactly
the IDs that appear in the pass's renew or refresh set and already had an
entry, each with its count unchanged; every other entry is removed. -/
theorem failedRenews_reset (p : RenewParams) (store : List RenterContract)
    (ids : List Nat) (old : Nat → Option Nat) (fcid : Nat) :
    resetFailedRenews old
        ((RenewContracts p store ids).renewSet.map FileContractRenewal.id)
        ((RenewContracts p store ids).refreshSet.map FileContractRenewal.id)
        fcid =
      if fcid ∈ (RenewContracts p store ids).renewSet.map FileContractRenewal.id ∨
          fcid ∈ (RenewContracts p store ids).refreshSet.map FileContractRenewal.id
        then old fcid else none := by
  simp only [resetFailedRenews]
  rw [resetFold_lookup, resetFold_lookup]
  cases ho : old fcid with
  | none => simp [ho]
  | some v =>
    by_cases hf : fcid ∈ (RenewContracts p store ids).refreshSet.map
        FileContractRenewal.id
    · simp [ho, hf]
    · by_cases hr : fcid ∈ (RenewContracts p store ids).renewSet.map
          FileContractRenewal.id
      · simp [ho, hf, hr]
      · simp [ho, hf, hr]

/-- Witness for `dedup_unique_and_resolution`: the concrete duplicate pair
`c1A` (start 1000) and `c1B` (start 1500) is resolved in favour of `c1B`. -/
theorem dedup_unique_and_resolution_witness :
    c1B ∈ (managedCheckForDuplicates c1St).store ∧
    (∀ c ∈ (managedCheckForDuplicates c1St).store, c.id ≠ c1A.id) ∧
    (managedCheckForDuplicates c1St).oldContracts c1A.id = some c1A ∧
    (managedCheckForDuplicates c1St).renewedFrom c1B.id = some c1A.id ∧
    (managedCheckForDuplicates c1St).renewedTo c1A.id = some c1B.id :=
  (dedup_unique_and_resolution c1St (by decide)).2 c1A c1B (by decide)
    (by decide) (by decide) (by decide) (by decide) (by decide)

end SiaSatellite

namespace SiaSatellitePortal

/-- Claim C10: `calculateOrderAmount` returns the constant 500 for every list
of items, so every payment intent the portal creates is for amount 500 in
USD regardless of the items. -/
theorem paymentIntent_amount_constant (items : List Item) :
    calculateOrderAmount items = 500 ∧
    paymentIntentParamsOf items = { amount := 500, currency := "usd" } := by
  constructor
  · rfl
  · rfl

end SiaSatellitePortal
